import Mathlib

/-!
# Verification of the DCKP heuristic solver core

Shallow embedding of the DCKP (Disjunctively Constrained Knapsack Problem)
heuristic solver: instance loading / conflict graph construction
(`instance_reader.cpp`), solutions (`solution.cpp`), the validator
(`validator.cpp`), the greedy and GRASP constructors (`greedy.cpp`,
`grasp.cpp`) and the two local searches (`hill_climbing.cpp`, `vnd.cpp`).

C++ `int` is modelled as `ℤ`, `double` scores as `ℚ`, `std::set<int>` as
`Finset ℕ` (selected item indices are produced by loops over `0..n_items-1`
and are never negative), and iteration over a `std::set` as iteration over
`Finset.sort (· ≤ ·)` (the ascending enumeration a `std::set<int>` provides).
-/

namespace DCKP

/-! ## List helpers

`sortBy` is insertion sort with a boolean "comes-before-or-equal" comparator.
It models the postcondition of `std::sort`/`std::ranges::sort` on the lists
the code sorts.  `dedupAdj` removes adjacent duplicates, modelling
`std::unique` on a sorted range.  `upairs` enumerates the ordered pairs
(positions i < j) of a list, modelling the double loops
`for i; for j = i+1` over a vector. -/

def insertLe (le : α → α → Bool) (x : α) : List α → List α
  | [] => [x]
  | y :: ys => if le x y then x :: y :: ys else y :: insertLe le x ys

def sortBy (le : α → α → Bool) (l : List α) : List α :=
  l.foldr (insertLe le) []

def dedupAdj : List ℕ → List ℕ
  | [] => []
  | [a] => [a]
  | a :: b :: rest => if a = b then dedupAdj (b :: rest) else a :: dedupAdj (b :: rest)

def upairs : List α → List (α × α)
  | [] => []
  | x :: xs => xs.map (fun y => (x, y)) ++ upairs xs

theorem mem_insertLe (le : α → α → Bool) (x a : α) (l : List α) :
    a ∈ insertLe le x l ↔ a = x ∨ a ∈ l := by
  induction l with
  | nil => simp [insertLe]
  | cons y ys ih =>
    simp only [insertLe]
    split
    · simp
    · simp [ih]
      tauto

theorem mem_sortBy (le : α → α → Bool) (a : α) (l : List α) :
    a ∈ sortBy le l ↔ a ∈ l := by
  induction l with
  | nil => simp [sortBy]
  | cons x xs ih =>
    simp only [sortBy, List.foldr_cons] at *
    rw [mem_insertLe]
    simp [ih]

theorem pairwise_insertLe (le : α → α → Bool)
    (htot : ∀ a b, le a b = false → le b a = true)
    (htrans : ∀ a b c, le a b = true → le b c = true → le a c = true)
    (x : α) (l : List α)
    (hl : l.Pairwise (fun a b => le a b = true)) :
    (insertLe le x l).Pairwise (fun a b => le a b = true) := by
  induction l with
  | nil => simp [insertLe]
  | cons y ys ih =>
    simp only [insertLe]
    rcases List.pairwise_cons.mp hl with ⟨hy, hys⟩
    by_cases hxy : le x y = true
    · rw [if_pos hxy]
      refine List.pairwise_cons.mpr ⟨?_, hl⟩
      intro b hb
      rw [List.mem_cons] at hb
      rcases hb with rfl | hb
      · exact hxy
      · exact htrans _ _ _ hxy (hy _ hb)
    · rw [if_neg hxy]
      refine List.pairwise_cons.mpr ⟨?_, ih hys⟩
      intro b hb
      rw [mem_insertLe] at hb
      rcases hb with rfl | hb
      · exact htot _ _ (Bool.eq_false_iff.mpr hxy)
      · exact hy _ hb

theorem pairwise_sortBy (le : α → α → Bool)
    (htot : ∀ a b, le a b = false → le b a = true)
    (htrans : ∀ a b c, le a b = true → le b c = true → le a c = true)
    (l : List α) :
    (sortBy le l).Pairwise (fun a b => le a b = true) := by
  induction l with
  | nil => simp [sortBy]
  | cons x xs ih =>
    simpa [sortBy] using
      pairwise_insertLe le htot htrans x _ (by simpa [sortBy] using ih)

theorem headD_le_of_pairwise (le : α → α → Bool) (hrefl : ∀ a, le a a = true)
    (l : List α) (hl : l.Pairwise (fun a b => le a b = true)) (d : α)
    (a : α) (ha : a ∈ l) : le (l.headD d) a = true := by
  cases l with
  | nil => cases ha
  | cons x xs =>
    rw [List.mem_cons] at ha
    rcases ha with rfl | ha
    · exact hrefl _
    · exact (List.pairwise_cons.mp hl).1 _ ha

theorem headD_mem (l : List α) (hl : l ≠ []) (d : α) : l.headD d ∈ l := by
  cases l with
  | nil => exact absurd rfl hl
  | cons x xs => exact List.mem_cons_self x xs

theorem getLastD_mem (l : List α) (hl : l ≠ []) (d : α) : l.getLastD d ∈ l := by
  cases l with
  | nil => exact absurd rfl hl
  | cons x xs =>
    rw [List.getLastD_cons]
    exact List.getLastD_mem_cons _ _

theorem le_getLastD_of_pairwise (le : α → α → Bool) (hrefl : ∀ a, le a a = true) :
    ∀ (l : List α), l.Pairwise (fun a b => le a b = true) →
      ∀ (d a : α), a ∈ l → le a (l.getLastD d) = true
  | [], _, _, _, ha => by cases ha
  | x :: xs, hl, d, a, ha => by
    rcases List.pairwise_cons.mp hl with ⟨hx, hxs⟩
    rw [List.mem_cons] at ha
    rw [List.getLastD_cons]
    cases xs with
    | nil =>
      rcases ha with rfl | h
      · exact hrefl _
      · cases h
    | cons y ys =>
      rcases ha with rfl | ha
      · exact hx _ (getLastD_mem (y :: ys) (by simp) a)
      · exact le_getLastD_of_pairwise le hrefl (y :: ys) hxs x a ha

theorem mem_dedupAdj (a : ℕ) : ∀ l : List ℕ, a ∈ dedupAdj l ↔ a ∈ l
  | [] => by simp [dedupAdj]
  | [b] => by simp [dedupAdj]
  | b :: c :: rest => by
    simp only [dedupAdj]
    by_cases hbc : b = c
    · rw [if_pos hbc, mem_dedupAdj a (c :: rest)]
      subst hbc
      simp only [List.mem_cons]
      tauto
    · rw [if_neg hbc]
      simp [mem_dedupAdj a (c :: rest)]

theorem pairwise_lt_dedupAdj :
    ∀ l : List ℕ, l.Pairwise (· ≤ ·) → (dedupAdj l).Pairwise (· < ·)
  | [] => by simp [dedupAdj]
  | [a] => by simp [dedupAdj]
  | a :: b :: rest => fun h => by
    rcases List.pairwise_cons.mp h with ⟨ha, hrest⟩
    simp only [dedupAdj]
    by_cases hab : a = b
    · rw [if_pos hab]
      exact pairwise_lt_dedupAdj (b :: rest) hrest
    · rw [if_neg hab]
      refine List.pairwise_cons.mpr ⟨?_, pairwise_lt_dedupAdj (b :: rest) hrest⟩
      intro c hc
      rw [mem_dedupAdj, List.mem_cons] at hc
      have hab2 : a ≤ b := ha b (List.mem_cons_self _ _)
      rcases hc with rfl | hc
      · omega
      · have h1 := ha c (List.mem_cons_of_mem _ hc)
        have h2 := (List.pairwise_cons.mp hrest).1 c hc
        omega

theorem mem_upairs_of_mem {l : List α} {p : α × α} (hp : p ∈ upairs l) :
    p.1 ∈ l ∧ p.2 ∈ l := by
  induction l with
  | nil => cases hp
  | cons x xs ih =>
    simp only [upairs, List.mem_append, List.mem_map] at hp
    rcases hp with ⟨y, hy, rfl⟩ | hp
    · exact ⟨List.mem_cons_self _ _, List.mem_cons_of_mem _ hy⟩
    · exact ⟨List.mem_cons_of_mem _ (ih hp).1, List.mem_cons_of_mem _ (ih hp).2⟩

theorem mem_upairs_sorted {l : List ℕ} (hl : l.Pairwise (· < ·)) (a b : ℕ) :
    (a, b) ∈ upairs l ↔ a ∈ l ∧ b ∈ l ∧ a < b := by
  induction l with
  | nil => simp [upairs]
  | cons x xs ih =>
    rcases List.pairwise_cons.mp hl with ⟨hx, hxs⟩
    simp only [upairs, List.mem_append, List.mem_map, Prod.mk.injEq]
    constructor
    · rintro (⟨y, hy, rfl, rfl⟩ | hp)
      · exact ⟨List.mem_cons_self _ _, List.mem_cons_of_mem _ hy, hx y hy⟩
      · rcases (ih hxs).mp hp with ⟨ha, hb, hab⟩
        exact ⟨List.mem_cons_of_mem _ ha, List.mem_cons_of_mem _ hb, hab⟩
    · rintro ⟨ha, hb, hab⟩
      rw [List.mem_cons] at ha hb
      rcases ha with rfl | ha
      · rcases hb with rfl | hb
        · omega
        · exact Or.inl ⟨b, hb, rfl, rfl⟩
      · rcases hb with rfl | hb
        · exact absurd (hx a ha) (by omega)
        · exact Or.inr ((ih hxs).mpr ⟨ha, hb, hab⟩)

/-! ## Ascending enumeration of a finite index set

A `std::set<int>` iterates its members in ascending order.  `ascItems`
is that enumeration for a `Finset ℕ`, written as a bounded filter so that
it evaluates inside the kernel (`Finset.sort` does not). -/

def ascItems (s : Finset ℕ) : List ℕ :=
  (List.range (s.sup id + 1)).filter (fun i => decide (i ∈ s))

theorem mem_ascItems (s : Finset ℕ) (i : ℕ) : i ∈ ascItems s ↔ i ∈ s := by
  unfold ascItems
  simp only [List.mem_filter, List.mem_range, decide_eq_true_eq]
  exact ⟨fun h => h.2, fun h => ⟨Nat.lt_succ_of_le (Finset.le_sup (f := id) h), h⟩⟩

theorem nodup_ascItems (s : Finset ℕ) : (ascItems s).Nodup :=
  (List.nodup_range _).sublist (List.filter_sublist _)

theorem pairwise_lt_ascItems (s : Finset ℕ) : (ascItems s).Pairwise (· < ·) :=
  (List.pairwise_lt_range _).sublist (List.filter_sublist _)

theorem ascItems_perm_sort (s : Finset ℕ) :
    List.Perm (ascItems s) (s.sort (· ≤ ·)) := by
  apply List.perm_of_nodup_nodup_toFinset_eq (nodup_ascItems s) (Finset.sort_nodup _ s)
  ext i
  simp [List.mem_toFinset, mem_ascItems, Finset.mem_sort]

theorem length_ascItems (s : Finset ℕ) : (ascItems s).length = s.card := by
  rw [(ascItems_perm_sort s).length_eq, Finset.length_sort]

/-! ## Instance and conflict graph (`instance_reader.cpp`)

`buildConflictGraph` clears the adjacency lists, then for every stored raw
pair `(u, v)` appends `v` to `adj[u]` and `u` to `adj[v]` (no `u ≠ v`
filter exists in the source), then sorts each list ascending and removes
adjacent duplicates (`std::ranges::sort` + `std::ranges::unique`).
`readFromFile` stores only in-range pairs, so the build is specified under
that hypothesis. -/

def pushAdj (g : List (List ℕ)) (u v : ℕ) : List (List ℕ) :=
  g.set u (g.getD u [] ++ [v])

def buildConflictGraph (n : ℕ) (conflicts : List (ℕ × ℕ)) : List (List ℕ) :=
  let raw := conflicts.foldl (fun g p => pushAdj (pushAdj g p.1 p.2) p.2 p.1)
    (List.replicate n [])
  raw.map (fun adjList => dedupAdj (sortBy (fun a b => decide (a ≤ b)) adjList))

structure DCKPInstance where
  n_items : ℕ
  capacity : ℤ
  profits : List ℤ
  weights : List ℤ
  conflicts : List (ℕ × ℕ)
  conflict_graph : List (List ℕ)
deriving DecidableEq

def DCKPInstance.profit (inst : DCKPInstance) (i : ℕ) : ℤ :=
  inst.profits.getD i 0

def DCKPInstance.weight (inst : DCKPInstance) (i : ℕ) : ℤ :=
  inst.weights.getD i 0

def DCKPInstance.adj (inst : DCKPInstance) (i : ℕ) : List ℕ :=
  inst.conflict_graph.getD i []

/-- `DCKPInstance::hasConflict(int, int)`: out-of-range indices short-circuit
to `false`; otherwise a binary search (here: membership, since the built
adjacency lists are sorted) for the other index in the smaller adjacency
list. -/
def DCKPInstance.hasConflict (inst : DCKPInstance) (item1 item2 : ℤ) : Bool :=
  if item1 < 0 ∨ (inst.n_items : ℤ) ≤ item1 ∨ item2 < 0 ∨ (inst.n_items : ℤ) ≤ item2 then
    false
  else
    let a := inst.adj item1.toNat
    let b := inst.adj item2.toNat
    if a.length ≤ b.length then a.contains item2.toNat else b.contains item1.toNat

/-- `hasConflict` at natural-number indices (every caller inside the solver
passes loop indices `0 ≤ i < n_items`). -/
def DCKPInstance.hasConflictN (inst : DCKPInstance) (i j : ℕ) : Bool :=
  inst.hasConflict (i : ℤ) (j : ℤ)

/-- `DCKPInstance::getConflictDegree`: adjacency-list length with a range
guard (the solver only calls it at in-range loop indices). -/
def DCKPInstance.getConflictDegree (inst : DCKPInstance) (item : ℕ) : ℕ :=
  if item < inst.n_items then (inst.adj item).length else 0

/-! ## Solution (`solution.cpp`) -/

/-- `Solution`: the selected set plus cached aggregates and metadata.
`std::set<int>` is modelled as `Finset ℕ`; `computation_time` (a `double`
the algorithms only ever overwrite with elapsed wall time, never read) is
carried as an opaque rational field. -/
@[ext]
structure Solution where
  selected_items : Finset ℕ
  total_profit : ℤ
  total_weight : ℤ
  is_feasible : Bool
  computation_time : ℚ
  method_name : String
deriving DecidableEq

/-- The `Solution()` default constructor. -/
def Solution.init : Solution :=
  { selected_items := ∅
    total_profit := 0
    total_weight := 0
    is_feasible := true
    computation_time := 0
    method_name := "Unknown" }

/-- `Solution::addItem`: insert, and update the aggregates only when the
item was actually absent. -/
def Solution.addItem (s : Solution) (item : ℕ) (profit weight : ℤ) : Solution :=
  if item ∈ s.selected_items then s
  else
    { s with
      selected_items := insert item s.selected_items
      total_profit := s.total_profit + profit
      total_weight := s.total_weight + weight }

/-- `Solution::removeItem`: erase, and update the aggregates only when the
item was actually present. -/
def Solution.removeItem (s : Solution) (item : ℕ) (profit weight : ℤ) : Solution :=
  if item ∈ s.selected_items then
    { s with
      selected_items := s.selected_items.erase item
      total_profit := s.total_profit - profit
      total_weight := s.total_weight - weight }
  else s

def Solution.hasItem (s : Solution) (item : ℕ) : Bool :=
  item ∈ s.selected_items

/-! ## Validator (`validator.cpp`) -/

namespace Validator

/-- `Validator::checkCapacity`. -/
def checkCapacity (inst : DCKPInstance) (current_weight item_weight : ℤ) : Bool :=
  current_weight + item_weight ≤ inst.capacity

/-- `Validator::checkConflicts`: `item` conflicts with no member of the
selected set (iterated in ascending order, as a `std::set` is). -/
def checkConflicts (inst : DCKPInstance) (item : ℕ) (selected_items : Finset ℕ) : Bool :=
  (ascItems selected_items).all (fun s => !(inst.hasConflictN item s))

/-- The pair scan inside `Validator::validate`: the double loop
`for i; for j = i+1` over the ascending vector of selected items, reporting
whether NO conflicting pair was found. -/
def conflictScanOk (inst : DCKPInstance) (selected_items : Finset ℕ) : Bool :=
  (upairs (ascItems selected_items)).all (fun p => !(inst.hasConflictN p.1 p.2))

/-- `Validator::recalculateMetrics`: recompute both aggregates from scratch
over the selected set, skipping indices outside `[0, n_items)`. -/
def recalculateMetrics (inst : DCKPInstance) (s : Solution) : Solution :=
  let pw := (ascItems s.selected_items).foldl
    (fun (pw : ℤ × ℤ) item =>
      if item < inst.n_items then (pw.1 + inst.profit item, pw.2 + inst.weight item) else pw)
    (0, 0)
  { s with total_profit := pw.1, total_weight := pw.2 }

/-- `Validator::validate`: flag a capacity violation (checked against the
cached `total_weight` as the solution arrived), flag any conflicting
selected pair, then recalculate the metrics, store the verdict in
`is_feasible` and return it. -/
def validate (inst : DCKPInstance) (s : Solution) : Solution × Bool :=
  let capacity_ok : Bool := !(inst.capacity < s.total_weight)
  let conflicts_ok : Bool := conflictScanOk inst s.selected_items
  let is_valid : Bool := capacity_ok && conflicts_ok
  let s1 := recalculateMetrics inst s
  ({ s1 with is_feasible := is_valid }, is_valid)

end Validator

/-! ## Characterization of the validator -/

theorem foldl_metrics_eq (n : ℕ) (P W : ℕ → ℤ) :
    ∀ (l : List ℕ) (a b : ℤ),
      l.foldl (fun (pw : ℤ × ℤ) item =>
          if item < n then (pw.1 + P item, pw.2 + W item) else pw) (a, b)
        = (a + ((l.filter (fun i => decide (i < n))).map P).sum,
           b + ((l.filter (fun i => decide (i < n))).map W).sum)
  | [], a, b => by simp
  | x :: xs, a, b => by
    by_cases hx : x < n
    · rw [List.foldl_cons, if_pos hx, foldl_metrics_eq n P W xs]
      simp only [List.filter_cons, decide_eq_true hx, if_true, List.map_cons,
        List.sum_cons, Prod.mk.injEq]
      constructor <;> ring
    · rw [List.foldl_cons, if_neg hx, foldl_metrics_eq n P W xs]
      simp [List.filter_cons, hx]

theorem filter_map_sum_eq_ite (f : ℕ → ℤ) (p : ℕ → Prop) [DecidablePred p] :
    ∀ l : List ℕ,
      ((l.filter (fun i => decide (p i))).map f).sum
        = (l.map (fun i => if p i then f i else 0)).sum
  | [] => by simp
  | x :: xs => by
    by_cases hx : p x <;>
      simp [List.filter_cons, hx, filter_map_sum_eq_ite f p xs]

theorem sum_map_ascItems (s : Finset ℕ) (g : ℕ → ℤ) :
    ((ascItems s).map g).sum = s.sum g := by
  rw [← Finset.sum_to_list]
  exact (((ascItems_perm_sort s).trans (Finset.sort_perm_toList _ s)).map g).sum_eq

theorem sum_filter_ascItems (s : Finset ℕ) (p : ℕ → Prop) [DecidablePred p] (f : ℕ → ℤ) :
    (((ascItems s).filter (fun i => decide (p i))).map f).sum
      = (s.filter p).sum f := by
  rw [filter_map_sum_eq_ite, sum_map_ascItems, Finset.sum_filter]

theorem recalculateMetrics_eq (inst : DCKPInstance) (s : Solution) :
    Validator.recalculateMetrics inst s =
      { s with
        total_profit := (s.selected_items.filter (· < inst.n_items)).sum inst.profit
        total_weight := (s.selected_items.filter (· < inst.n_items)).sum inst.weight } := by
  unfold Validator.recalculateMetrics
  rw [foldl_metrics_eq]
  simp [sum_filter_ascItems]

theorem checkConflicts_iff (inst : DCKPInstance) (item : ℕ) (sel : Finset ℕ) :
    Validator.checkConflicts inst item sel = true ↔
      ∀ x ∈ sel, inst.hasConflictN item x = false := by
  unfold Validator.checkConflicts
  rw [List.all_eq_true]
  constructor
  · intro h x hx
    simpa using h x ((mem_ascItems sel x).mpr hx)
  · intro h x hx
    simpa using h x ((mem_ascItems sel x).mp hx)

theorem conflictScanOk_iff (inst : DCKPInstance) (sel : Finset ℕ) :
    Validator.conflictScanOk inst sel = true ↔
      ∀ i ∈ sel, ∀ j ∈ sel, i < j → inst.hasConflictN i j = false := by
  unfold Validator.conflictScanOk
  rw [List.all_eq_true]
  have hsorted : (ascItems sel).Pairwise (· < ·) := pairwise_lt_ascItems sel
  constructor
  · intro h i hi j hj hij
    have hp : (i, j) ∈ upairs (ascItems sel) :=
      (mem_upairs_sorted hsorted i j).mpr
        ⟨(mem_ascItems sel i).mpr hi, (mem_ascItems sel j).mpr hj, hij⟩
    simpa using h (i, j) hp
  · intro h p hp
    rcases (mem_upairs_sorted hsorted p.1 p.2).mp (by simpa using hp) with ⟨h1, h2, h12⟩
    simpa using h p.1 ((mem_ascItems sel p.1).mp h1) p.2
      ((mem_ascItems sel p.2).mp h2) h12

theorem validate_snd (inst : DCKPInstance) (s : Solution) :
    (Validator.validate inst s).2 =
      ((!(inst.capacity < s.total_weight)) && Validator.conflictScanOk inst s.selected_items) :=
  rfl

theorem validate_fst (inst : DCKPInstance) (s : Solution) :
    (Validator.validate inst s).1 =
      { s with
        total_profit := (s.selected_items.filter (· < inst.n_items)).sum inst.profit
        total_weight := (s.selected_items.filter (· < inst.n_items)).sum inst.weight
        is_feasible :=
          (!(inst.capacity < s.total_weight)) && Validator.conflictScanOk inst s.selected_items } := by
  unfold Validator.validate
  rw [recalculateMetrics_eq]

theorem validate_snd_true_iff (inst : DCKPInstance) (s : Solution) :
    (Validator.validate inst s).2 = true ↔
      s.total_weight ≤ inst.capacity ∧
        ∀ i ∈ s.selected_items, ∀ j ∈ s.selected_items, i < j →
          inst.hasConflictN i j = false := by
  rw [validate_snd, Bool.and_eq_true, conflictScanOk_iff, Bool.not_eq_true']
  constructor
  · rintro ⟨h1, h2⟩
    exact ⟨not_lt.mp (of_decide_eq_false h1), h2⟩
  · rintro ⟨h1, h2⟩
    exact ⟨decide_eq_false (not_lt.mpr h1), h2⟩

/-! ## The feasibility invariant maintained by the heuristics -/

/-- Symmetry of the conflict query on in-range indices.  It holds for every
conflict graph produced by `buildConflictGraph` (the edge `(u, v)` is
inserted in both directions); the search procedures are specified under
this hypothesis. -/
def ConflictSymm (inst : DCKPInstance) : Prop :=
  ∀ i j, i < inst.n_items → j < inst.n_items →
    inst.hasConflictN i j = inst.hasConflictN j i

instance (inst : DCKPInstance) : Decidable (ConflictSymm inst) :=
  decidable_of_iff
    (∀ i < inst.n_items, ∀ j < inst.n_items,
      inst.hasConflictN i j = inst.hasConflictN j i)
    (by unfold ConflictSymm; tauto)

/-- No unordered pair of the set is in conflict. -/
def PairFree (inst : DCKPInstance) (sel : Finset ℕ) : Prop :=
  ∀ i ∈ sel, ∀ j ∈ sel, i ≠ j → inst.hasConflictN i j = false

/-- The invariant every constructor establishes and every local-search move
preserves: selected indices are in range, the cached `total_weight` equals
the true sum, the capacity bound holds, and no selected pair conflicts. -/
def SolutionInv (inst : DCKPInstance) (s : Solution) : Prop :=
  (∀ i ∈ s.selected_items, i < inst.n_items) ∧
  s.total_weight = s.selected_items.sum inst.weight ∧
  s.total_weight ≤ inst.capacity ∧
  PairFree inst s.selected_items

/-- What claim C1 asserts of a produced solution: `validate` accepts it and
afterwards both aggregates equal the sums over the selected set. -/
def ValidatesOk (inst : DCKPInstance) (s : Solution) : Prop :=
  (Validator.validate inst s).2 = true ∧
  (Validator.validate inst s).1.total_profit = s.selected_items.sum inst.profit ∧
  (Validator.validate inst s).1.total_weight = s.selected_items.sum inst.weight

instance (inst : DCKPInstance) (s : Solution) : Decidable (ValidatesOk inst s) := by
  unfold ValidatesOk
  infer_instance

theorem validatesOk_of_inv {inst : DCKPInstance} {s : Solution}
    (h : SolutionInv inst s) : ValidatesOk inst s := by
  obtain ⟨hrange, hw, hcap, hpair⟩ := h
  have hfilter : s.selected_items.filter (· < inst.n_items) = s.selected_items :=
    Finset.filter_true_of_mem hrange
  refine ⟨?_, ?_, ?_⟩
  · rw [validate_snd_true_iff]
    exact ⟨hcap, fun i hi j hj hij => hpair i hi j hj (Nat.ne_of_lt hij)⟩
  · rw [validate_fst]
    simp [hfilter]
  · rw [validate_fst]
    simp [hfilter]

theorem inv_validate {inst : DCKPInstance} {s : Solution}
    (h : SolutionInv inst s) : SolutionInv inst (Validator.validate inst s).1 := by
  obtain ⟨hrange, hw, hcap, hpair⟩ := h
  have hfilter : s.selected_items.filter (· < inst.n_items) = s.selected_items :=
    Finset.filter_true_of_mem hrange
  rw [validate_fst]
  refine ⟨hrange, ?_, ?_, hpair⟩
  · show (s.selected_items.filter (· < inst.n_items)).sum inst.weight
        = s.selected_items.sum inst.weight
    rw [hfilter]
  · show (s.selected_items.filter (· < inst.n_items)).sum inst.weight ≤ inst.capacity
    rw [hfilter]
    exact hw ▸ hcap

theorem solutionInv_init (inst : DCKPInstance) (hcap : 0 ≤ inst.capacity) :
    SolutionInv inst Solution.init := by
  refine ⟨by simp [Solution.init], by simp [Solution.init],
    by simpa [Solution.init] using hcap, ?_⟩
  intro i hi
  simp [Solution.init] at hi

/-- The step shared by the greedy pass and GRASP: adding an item that
passed `checkCapacity` and `checkConflicts` preserves the invariant. -/
theorem inv_addItem_of_checks {inst : DCKPInstance} {s : Solution}
    (hsymm : ConflictSymm inst) (hinv : SolutionInv inst s) {item : ℕ}
    (hitem : item < inst.n_items)
    (hcap : Validator.checkCapacity inst s.total_weight (inst.weight item) = true)
    (hconf : Validator.checkConflicts inst item s.selected_items = true) :
    SolutionInv inst (s.addItem item (inst.profit item) (inst.weight item)) := by
  by_cases hmem : item ∈ s.selected_items
  · rw [Solution.addItem, if_pos hmem]
    exact hinv
  · obtain ⟨hrange, hw, hcapw, hpair⟩ := hinv
    rw [Solution.addItem, if_neg hmem]
    have hcap2 : s.total_weight + inst.weight item ≤ inst.capacity := by
      simpa [Validator.checkCapacity] using hcap
    have hconf2 := (checkConflicts_iff inst item s.selected_items).mp hconf
    refine ⟨?_, ?_, hcap2, ?_⟩
    · intro i hi
      rcases Finset.mem_insert.mp hi with rfl | hi
      · exact hitem
      · exact hrange i hi
    · show s.total_weight + inst.weight item = (insert item s.selected_items).sum inst.weight
      rw [Finset.sum_insert hmem, hw]
      ring
    · intro i hi j hj hij
      rcases Finset.mem_insert.mp hi with hi2 | hi2 <;>
        rcases Finset.mem_insert.mp hj with hj2 | hj2
      · exact absurd (hi2.trans hj2.symm) hij
      · rw [hi2]
        exact hconf2 j hj2
      · rw [hj2, hsymm i item (hrange i hi2) hitem]
        exact hconf2 i hi2
      · exact hpair i hi2 j hj2 hij

/-! ## Greedy constructor (`greedy.cpp`)

Scores are `double` in the source and are modelled as `ℚ`. -/

inductive GreedyStrategy
  | MAX_PROFIT
  | MIN_WEIGHT
  | MAX_PROFIT_WEIGHT
  | MIN_CONFLICTS
deriving DecidableEq

namespace GreedyConstructive

/-- `GreedyConstructive::calculateScore`.  For `MAX_PROFIT_WEIGHT` a
zero-weight item gets the constant sentinel `1e9`. -/
def calculateScore (inst : DCKPInstance) (item : ℕ) : GreedyStrategy → ℚ
  | .MAX_PROFIT => (inst.profit item : ℚ)
  | .MIN_WEIGHT => -(inst.weight item : ℚ)
  | .MAX_PROFIT_WEIGHT =>
    if inst.weight item = 0 then (10 ^ 9 : ℚ)
    else (inst.profit item : ℚ) / (inst.weight item : ℚ)
  | .MIN_CONFLICTS => -((inst.adj item).length : ℚ)

/-- The record sorted by `sortItemsByStrategy`. -/
structure ItemScore where
  item_id : ℕ
  score : ℚ
deriving DecidableEq

/-- `ItemScore::operator>`: compares scores only — the item id takes no
part in the comparison. -/
def ItemScore.gtScore (a other : ItemScore) : Bool :=
  other.score < a.score

/-- The scored list built by `sortItemsByStrategy` before sorting. -/
def scoresList (inst : DCKPInstance) (strategy : GreedyStrategy) : List ItemScore :=
  (List.range inst.n_items).map (fun i => ⟨i, calculateScore inst i strategy⟩)

/-- The postcondition of `std::sort(scores, std::greater<ItemScore>())`
followed by projecting `item_id`: `out` is an admissible output of
`sortItemsByStrategy` iff it is the projection of some permutation of the
scored list that is sorted for the comparator (`std::sort` fixes nothing
beyond this; in particular the relative order of equal-score records is
unspecified). -/
def IsSortOutput (inst : DCKPInstance) (strategy : GreedyStrategy)
    (out : List ℕ) : Prop :=
  ∃ perm : List ItemScore,
    perm.Perm (scoresList inst strategy) ∧
    perm.Pairwise (fun a b => b.score ≤ a.score) ∧
    out = perm.map ItemScore.item_id

/-- The single greedy pass of `GreedyConstructive::construct` over an item
order: add each item iff `checkCapacity` and `checkConflicts` pass. -/
def greedyPass (inst : DCKPInstance) (order : List ℕ) : Solution :=
  order.foldl
    (fun sol item =>
      if !(Validator.checkCapacity inst sol.total_weight (inst.weight item)) then sol
      else if !(Validator.checkConflicts inst item sol.selected_items) then sol
      else sol.addItem item (inst.profit item) (inst.weight item))
    Solution.init

/-- `GreedyConstructive::construct` for a given admissible item order:
greedy pass, then the final `validate` (the elapsed-time stamp and the
`"Greedy_<strategy>"` name are metadata not modelled further). -/
def construct (inst : DCKPInstance) (order : List ℕ) : Solution :=
  (Validator.validate inst (greedyPass inst order)).1

end GreedyConstructive

/-! ## GRASP constructor (`grasp.cpp`) -/

namespace GRASPConstructive

/-- The candidate record of `buildRCL`. -/
structure Candidate where
  item_id : ℕ
  score : ℚ
deriving DecidableEq

/-- `GRASPConstructive::calculateScore`: value/weight base (zero or
negative weight: `1000 · profit`), penalised by conflicts against the
current selection plus the global conflict degree. -/
def calculateScore (inst : DCKPInstance) (current_solution : Solution)
    (item : ℕ) : ℚ :=
  let base_score : ℚ :=
    if 0 < inst.weight item then (inst.profit item : ℚ) / (inst.weight item : ℚ)
    else (inst.profit item : ℚ) * 1000
  let conflict_count : ℕ :=
    ((ascItems current_solution.selected_items).filter
      (fun s => inst.hasConflictN item s)).length
      + inst.getConflictDegree item
  base_score * (1 / (1 + (1 / 10 : ℚ) * conflict_count))

/-- The feasibility filter on candidates in `buildRCL`: not selected,
capacity probe passes, conflict probe passes. -/
def candidateOk (inst : DCKPInstance) (current_solution : Solution) (i : ℕ) : Bool :=
  !(current_solution.hasItem i) &&
    Validator.checkCapacity inst current_solution.total_weight (inst.weight i) &&
    Validator.checkConflicts inst i current_solution.selected_items

/-- The filtered and scored candidate vector built at the top of
`GRASPConstructive::buildRCL`. -/
def candidatesList (inst : DCKPInstance) (current_solution : Solution) :
    List Candidate :=
  ((List.range inst.n_items).filter (candidateOk inst current_solution)).map
    (fun i => Candidate.mk i (calculateScore inst current_solution i))

/-- The candidate vector after `std::ranges::sort(candidates,
std::greater)`: descending score. -/
def sortedCandidates (inst : DCKPInstance) (current_solution : Solution) :
    List Candidate :=
  sortBy (fun a b => decide (b.score ≤ a.score)) (candidatesList inst current_solution)

/-- The RCL threshold `max_score - alpha * (max_score - min_score)`, with
`max_score`/`min_score` read from the front/back of the sorted candidate
vector. -/
def rclThreshold (inst : DCKPInstance) (current_solution : Solution)
    (alpha : ℚ) : ℚ :=
  let max_score := ((sortedCandidates inst current_solution).headD ⟨0, 0⟩).score
  let min_score := ((sortedCandidates inst current_solution).getLastD ⟨0, 0⟩).score
  max_score - alpha * (max_score - min_score)

/-- `GRASPConstructive::buildRCL`: filter and score the candidates, sort by
descending score, take `s_max`/`s_min` from the front/back, and keep every
candidate with `score ≥ s_max − α·(s_max − s_min)`. -/
def buildRCL (inst : DCKPInstance) (current_solution : Solution) (alpha : ℚ) :
    List ℕ :=
  if (candidatesList inst current_solution).isEmpty then []
  else
    ((sortedCandidates inst current_solution).filter
      (fun c => decide (rclThreshold inst current_solution alpha ≤ c.score))).map
      Candidate.item_id

/-- The construction loop of `GRASPConstructive::constructSolution`: while
the RCL is non-empty, draw one of its members uniformly
(`selectFromRCL`, modelled by an arbitrary draw stream reduced modulo the
RCL size) and add it.  Each pass inserts a new item, so `n_items + 1`
passes always reach the empty-RCL exit. -/
def constructLoop (inst : DCKPInstance) (alpha : ℚ) (rand : ℕ → ℕ) :
    ℕ → ℕ → Solution → Solution
  | 0, _, sol => sol
  | fuel + 1, step, sol =>
    let rcl := buildRCL inst sol alpha
    if rcl.isEmpty then sol
    else
      let item := rcl.getD (rand step % rcl.length) 0
      constructLoop inst alpha rand fuel (step + 1)
        (sol.addItem item (inst.profit item) (inst.weight item))

/-- `GRASPConstructive::constructSolution`: empty start, construction loop,
final `validate`. -/
def constructSolution (inst : DCKPInstance) (alpha : ℚ) (rand : ℕ → ℕ) : Solution :=
  (Validator.validate inst
    (constructLoop inst alpha rand (inst.n_items + 1) 0 Solution.init)).1

/-- `GRASPConstructive::solve`: multi-start over `iterations` constructions
keeping the strictly best feasible one; the incumbent starts as an empty
solution with `total_profit = -1`.  (`method_name` records the parameters
in the source; the parameter formatting is not modelled.) -/
def solve (inst : DCKPInstance) (alpha : ℚ) (rand : ℕ → ℕ → ℕ)
    (iterations : ℕ) : Solution :=
  let best0 : Solution := { Solution.init with total_profit := -1 }
  let best := (List.range iterations).foldl
    (fun best i =>
      let current := constructSolution inst alpha (rand i)
      if current.is_feasible && best.total_profit < current.total_profit then current
      else best)
    best0
  { best with method_name := "GRASP" }

end GRASPConstructive

/-! ## Lemmas about the restricted candidate list -/

theorem length_insertLe (le : α → α → Bool) (x : α) :
    ∀ l : List α, (insertLe le x l).length = l.length + 1
  | [] => rfl
  | y :: ys => by
    simp only [insertLe]
    split
    · rfl
    · simp [length_insertLe le x ys]

theorem length_sortBy (le : α → α → Bool) :
    ∀ l : List α, (sortBy le l).length = l.length
  | [] => rfl
  | x :: xs => by
    show (insertLe le x (sortBy le xs)).length = xs.length + 1
    rw [length_insertLe, length_sortBy le xs]

namespace GRASPConstructive

theorem mem_candidatesList (inst : DCKPInstance) (sol : Solution) (c : Candidate) :
    c ∈ candidatesList inst sol ↔
      c.item_id < inst.n_items ∧ candidateOk inst sol c.item_id = true ∧
        c.score = calculateScore inst sol c.item_id := by
  unfold candidatesList
  simp only [List.mem_map, List.mem_filter, List.mem_range]
  constructor
  · rintro ⟨i, ⟨hir, hok⟩, rfl⟩
    exact ⟨hir, hok, rfl⟩
  · rintro ⟨h1, h2, h3⟩
    refine ⟨c.item_id, ⟨h1, h2⟩, ?_⟩
    cases c
    simp only at h3
    simp [h3]

theorem mem_sortedCandidates (inst : DCKPInstance) (sol : Solution) (c : Candidate) :
    c ∈ sortedCandidates inst sol ↔ c ∈ candidatesList inst sol :=
  mem_sortBy _ c _

theorem pairwise_sortedCandidates (inst : DCKPInstance) (sol : Solution) :
    (sortedCandidates inst sol).Pairwise (fun a b => b.score ≤ a.score) := by
  have h := pairwise_sortBy (fun a b : Candidate => decide (b.score ≤ a.score))
    (fun a b hf => by
      simp only [decide_eq_false_iff_not, not_le] at hf
      exact decide_eq_true hf.le)
    (fun a b c h1 h2 => by
      simp only [decide_eq_true_eq] at h1 h2 ⊢
      exact h2.trans h1)
    (candidatesList inst sol)
  exact h.imp (fun hab => of_decide_eq_true hab)

theorem score_le_headD (inst : DCKPInstance) (sol : Solution) (c : Candidate)
    (hc : c ∈ sortedCandidates inst sol) :
    c.score ≤ ((sortedCandidates inst sol).headD ⟨0, 0⟩).score := by
  have h := headD_le_of_pairwise (fun a b : Candidate => decide (b.score ≤ a.score))
    (fun a => decide_eq_true le_rfl)
    (sortedCandidates inst sol)
    ((pairwise_sortedCandidates inst sol).imp (fun hab => decide_eq_true hab))
    ⟨0, 0⟩ c hc
  exact of_decide_eq_true h

theorem getLastD_le_score (inst : DCKPInstance) (sol : Solution) (c : Candidate)
    (hc : c ∈ sortedCandidates inst sol) :
    ((sortedCandidates inst sol).getLastD ⟨0, 0⟩).score ≤ c.score := by
  have h := le_getLastD_of_pairwise (fun a b : Candidate => decide (b.score ≤ a.score))
    (fun a => decide_eq_true le_rfl)
    (sortedCandidates inst sol)
    ((pairwise_sortedCandidates inst sol).imp (fun hab => decide_eq_true hab))
    ⟨0, 0⟩ c hc
  exact of_decide_eq_true h

theorem sortedCandidates_ne_nil {inst : DCKPInstance} {sol : Solution}
    (h : candidatesList inst sol ≠ []) : sortedCandidates inst sol ≠ [] := by
  intro hc
  apply h
  have := length_sortBy (fun a b : Candidate => decide (b.score ≤ a.score))
    (candidatesList inst sol)
  rw [show sortBy (fun a b : Candidate => decide (b.score ≤ a.score))
      (candidatesList inst sol) = sortedCandidates inst sol from rfl, hc] at this
  exact List.length_eq_zero.mp this.symm

theorem mem_buildRCL_iff (inst : DCKPInstance) (sol : Solution) (alpha : ℚ)
    (j : ℕ) :
    j ∈ buildRCL inst sol alpha ↔
      j < inst.n_items ∧ candidateOk inst sol j = true ∧
        rclThreshold inst sol alpha ≤ calculateScore inst sol j := by
  unfold buildRCL
  by_cases hemp : (candidatesList inst sol).isEmpty
  · rw [if_pos hemp]
    simp only [List.not_mem_nil, false_iff]
    rintro ⟨h1, h2, h3⟩
    have hmem : (⟨j, calculateScore inst sol j⟩ : Candidate) ∈ candidatesList inst sol :=
      (mem_candidatesList inst sol _).mpr ⟨h1, h2, rfl⟩
    rw [List.isEmpty_iff.mp hemp] at hmem
    cases hmem
  · rw [if_neg hemp]
    simp only [List.mem_map, List.mem_filter]
    constructor
    · rintro ⟨c, ⟨hc, hth⟩, rfl⟩
      rcases (mem_candidatesList inst sol c).mp
        ((mem_sortedCandidates inst sol c).mp hc) with ⟨h1, h2, h3⟩
      refine ⟨h1, h2, ?_⟩
      rw [← h3]
      exact of_decide_eq_true hth
    · rintro ⟨h1, h2, h3⟩
      refine ⟨⟨j, calculateScore inst sol j⟩, ⟨?_, decide_eq_true h3⟩, rfl⟩
      exact (mem_sortedCandidates inst sol _).mpr
        ((mem_candidatesList inst sol _).mpr ⟨h1, h2, rfl⟩)

theorem buildRCL_ne_nil (inst : DCKPInstance) (sol : Solution) (alpha : ℚ)
    (h0 : 0 ≤ alpha)
    (hex : ∃ i, i < inst.n_items ∧ candidateOk inst sol i = true) :
    buildRCL inst sol alpha ≠ [] := by
  obtain ⟨i0, hi0, hok0⟩ := hex
  have hne : candidatesList inst sol ≠ [] := by
    intro h
    have hmem : (⟨i0, calculateScore inst sol i0⟩ : Candidate) ∈ candidatesList inst sol :=
      (mem_candidatesList inst sol _).mpr ⟨hi0, hok0, rfl⟩
    rw [h] at hmem
    cases hmem
  have hsne := sortedCandidates_ne_nil hne
  have hhd : (sortedCandidates inst sol).headD ⟨0, 0⟩ ∈ sortedCandidates inst sol :=
    headD_mem _ hsne _
  rcases (mem_candidatesList inst sol _).mp
    ((mem_sortedCandidates inst sol _).mp hhd) with ⟨hid, hok, hsc⟩
  have hlast : (sortedCandidates inst sol).getLastD ⟨0, 0⟩ ∈ sortedCandidates inst sol :=
    getLastD_mem _ hsne _
  have hminmax :
      ((sortedCandidates inst sol).getLastD ⟨0, 0⟩).score ≤
        ((sortedCandidates inst sol).headD ⟨0, 0⟩).score :=
    getLastD_le_score inst sol _ hhd
  have hthdef : rclThreshold inst sol alpha =
      ((sortedCandidates inst sol).headD ⟨0, 0⟩).score -
        alpha * (((sortedCandidates inst sol).headD ⟨0, 0⟩).score -
          ((sortedCandidates inst sol).getLastD ⟨0, 0⟩).score) := rfl
  have hth : rclThreshold inst sol alpha ≤
      ((sortedCandidates inst sol).headD ⟨0, 0⟩).score := by
    rw [hthdef]
    have := mul_nonneg h0 (sub_nonneg.mpr hminmax)
    linarith
  intro hnil
  have : ((sortedCandidates inst sol).headD ⟨0, 0⟩).item_id ∈ buildRCL inst sol alpha := by
    rw [mem_buildRCL_iff]
    exact ⟨hid, hok, by rw [← hsc]; exact hth⟩
  rw [hnil] at this
  cases this

end GRASPConstructive

/-! ## Hill climbing (`hill_climbing.cpp`) -/

namespace HillClimbing

/-- `HillClimbing::generateSwapNeighborhood`: for each selected `item_out`
(ascending) and each non-selected `item_in` (ascending), emit the 1-for-1
swap neighbour iff the swapped weight fits and `item_in` conflicts with no
remaining selected item. -/
def generateSwapNeighborhood (inst : DCKPInstance) (current_sol : Solution) :
    List Solution :=
  let in_solution := ascItems current_sol.selected_items
  let out_solution :=
    (List.range inst.n_items).filter (fun i => !(current_sol.hasItem i))
  in_solution.flatMap (fun item_out =>
    out_solution.filterMap (fun item_in =>
      let new_weight :=
        current_sol.total_weight - inst.weight item_out + inst.weight item_in
      if inst.capacity < new_weight then none
      else if (ascItems current_sol.selected_items).any
          (fun remaining => remaining ≠ item_out && inst.hasConflictN item_in remaining)
        then none
      else
        some
          { (current_sol.removeItem item_out (inst.profit item_out)
              (inst.weight item_out)).addItem item_in (inst.profit item_in)
              (inst.weight item_in) with
            is_feasible := true }))

/-- The loop body of `HillClimbing::findBestNeighbor`: a neighbour is
considered only when it strictly improves on the current solution, and
replaces the incumbent only when it strictly improves on the incumbent. -/
def bestStep (current_sol : Solution) (best : Option Solution)
    (neighbor : Solution) : Option Solution :=
  if current_sol.total_profit < neighbor.total_profit then
    match best with
    | none => some neighbor
    | some b =>
      if b.total_profit < neighbor.total_profit then some neighbor else best
  else best

/-- `HillClimbing::findBestNeighbor`: among the neighbours of strictly
greater profit than the current solution, the first one of maximum profit. -/
def findBestNeighbor (current_sol : Solution) (neighborhood : List Solution) :
    Option Solution :=
  neighborhood.foldl (bestStep current_sol) none

/-- The iteration loop of `HillClimbing::solve`; also returns the number of
improving moves taken (the `improvements` counter of the source). -/
def solveLoop (inst : DCKPInstance) : ℕ → Solution → ℕ → Solution × ℕ
  | 0, current_sol, improvements => (current_sol, improvements)
  | fuel + 1, current_sol, improvements =>
    match findBestNeighbor current_sol (generateSwapNeighborhood inst current_sol) with
    | none => (current_sol, improvements)
    | some best => solveLoop inst fuel best (improvements + 1)

/-- `HillClimbing::solve`.  The source stamps `method_name` before the
loop; neighbours copy the current solution, so stamping the result is the
same and keeps the loop independent of metadata. -/
def solve (inst : DCKPInstance) (initial_solution : Solution)
    (max_iterations : ℕ) : Solution × ℕ :=
  let r := solveLoop inst max_iterations initial_solution 0
  ({ r.1 with method_name := "HillClimbing" }, r.2)

end HillClimbing

/-! ## Lemmas about best-improvement selection -/

theorem bestStep_fold_spec (cur : Solution) :
    ∀ (l : List Solution) (acc : Option Solution),
      (l.foldl (HillClimbing.bestStep cur) acc = none →
        acc = none ∧ ∀ nb ∈ l, ¬ cur.total_profit < nb.total_profit) ∧
      ((acc = none ∧ ∀ nb ∈ l, ¬ cur.total_profit < nb.total_profit) →
        l.foldl (HillClimbing.bestStep cur) acc = none) ∧
      (∀ b, l.foldl (HillClimbing.bestStep cur) acc = some b →
        ((b ∈ l ∧ cur.total_profit < b.total_profit) ∨ acc = some b) ∧
        (∀ nb ∈ l, cur.total_profit < nb.total_profit →
          nb.total_profit ≤ b.total_profit) ∧
        (∀ a, acc = some a → a.total_profit ≤ b.total_profit))
  | [], acc => by
    refine ⟨fun h => ⟨h, by simp⟩, fun h => h.1, fun b hb => ?_⟩
    simp only [List.foldl_nil] at hb
    exact ⟨Or.inr hb, by simp, fun a ha => by rw [ha] at hb; cases hb; exact le_rfl⟩
  | x :: xs, acc => by
    have ih := bestStep_fold_spec cur xs (HillClimbing.bestStep cur acc x)
    rw [List.foldl_cons]
    by_cases himp : cur.total_profit < x.total_profit
    · have hstep : ∀ r, HillClimbing.bestStep cur acc x = r →
          (acc = none → r = some x) ∧
          (∀ a, acc = some a →
            (r = some x ∧ a.total_profit ≤ x.total_profit) ∨
            (r = some a ∧ x.total_profit ≤ a.total_profit)) := by
        intro r hr
        unfold HillClimbing.bestStep at hr
        rw [if_pos himp] at hr
        constructor
        · intro hacc
          rw [hacc] at hr
          exact hr.symm
        · intro a hacc
          rw [hacc] at hr
          dsimp only at hr
          by_cases hax : a.total_profit < x.total_profit
          · rw [if_pos hax] at hr
            exact Or.inl ⟨hr.symm, hax.le⟩
          · rw [if_neg hax] at hr
            exact Or.inr ⟨hr.symm, not_lt.mp hax⟩
      refine ⟨fun h => ?_, fun h => ?_, fun b hb => ?_⟩
      · -- result none: impossible, the step always yields some
        exfalso
        have hsn := (ih.1 h).1
        rcases hstep _ rfl with ⟨hnone, hsome⟩
        cases hacc2 : acc with
        | none =>
          rw [hnone hacc2] at hsn
          cases hsn
        | some a =>
          rcases hsome a hacc2 with ⟨he, _⟩ | ⟨he, _⟩ <;>
            · rw [he] at hsn
              cases hsn
      · exact absurd (h.2 x (List.mem_cons_self _ _)) (by simpa using himp)
      · rcases ih.2.2 b hb with ⟨hmem, hmax, hacc⟩
        rcases hstep _ rfl with ⟨hnone, hsome⟩
        constructor
        · rcases hmem with ⟨hbx, hcb⟩ | heq
          · exact Or.inl ⟨List.mem_cons_of_mem _ hbx, hcb⟩
          · cases hacc2 : acc with
            | none =>
              have hxb : x = b := Option.some.inj ((hnone hacc2).symm.trans heq)
              refine Or.inl ⟨?_, ?_⟩
              · rw [← hxb]
                exact List.mem_cons_self _ _
              · rw [← hxb]
                exact himp
            | some a =>
              rcases hsome a hacc2 with ⟨he, _⟩ | ⟨he, _⟩
              · have hxb : x = b := Option.some.inj (he.symm.trans heq)
                refine Or.inl ⟨?_, ?_⟩
                · rw [← hxb]
                  exact List.mem_cons_self _ _
                · rw [← hxb]
                  exact himp
              · have hab : a = b := Option.some.inj (he.symm.trans heq)
                exact Or.inr (by rw [hab])
        refine ⟨?_, ?_⟩
        · intro nb hnb hcnb
          rw [List.mem_cons] at hnb
          rcases hnb with rfl | hnb
          · -- nb = x: the step's outcome has profit at least x's
            cases hacc2 : acc with
            | none => exact hacc _ (hnone hacc2)
            | some a =>
              rcases hsome a hacc2 with ⟨he, _⟩ | ⟨he, hxa⟩
              · exact hacc _ he
              · exact hxa.trans (hacc a he)
          · exact hmax nb hnb hcnb
        · intro a ha
          rcases hsome a ha with ⟨he, hax⟩ | ⟨he, _⟩
          · exact hax.trans (hacc _ he)
          · exact hacc a he
    · have hstep : HillClimbing.bestStep cur acc x = acc := by
        unfold HillClimbing.bestStep
        rw [if_neg himp]
      rw [hstep] at ih ⊢
      refine ⟨fun h => ?_, fun h => ?_, fun b hb => ?_⟩
      · refine ⟨(ih.1 h).1, ?_⟩
        intro nb hnb
        rw [List.mem_cons] at hnb
        rcases hnb with rfl | hnb
        · exact himp
        · exact (ih.1 h).2 nb hnb
      · exact ih.2.1 ⟨h.1, fun nb hnb => h.2 nb (List.mem_cons_of_mem _ hnb)⟩
      · rcases ih.2.2 b hb with ⟨hmem, hmax, hacc⟩
        refine ⟨?_, ?_, hacc⟩
        · rcases hmem with ⟨hbx, hcb⟩ | heq
          · exact Or.inl ⟨List.mem_cons_of_mem _ hbx, hcb⟩
          · exact Or.inr heq
        · intro nb hnb hcnb
          rw [List.mem_cons] at hnb
          rcases hnb with rfl | hnb
          · exact absurd hcnb himp
          · exact hmax nb hnb hcnb

theorem findBestNeighbor_none_iff (cur : Solution) (nbhd : List Solution) :
    HillClimbing.findBestNeighbor cur nbhd = none ↔
      ∀ nb ∈ nbhd, ¬ cur.total_profit < nb.total_profit := by
  unfold HillClimbing.findBestNeighbor
  constructor
  · intro h
    exact ((bestStep_fold_spec cur nbhd none).1 h).2
  · intro h
    exact (bestStep_fold_spec cur nbhd none).2.1 ⟨rfl, h⟩

theorem findBestNeighbor_some_spec (cur : Solution) (nbhd : List Solution)
    (b : Solution) (hb : HillClimbing.findBestNeighbor cur nbhd = some b) :
    b ∈ nbhd ∧ cur.total_profit < b.total_profit ∧
      ∀ nb ∈ nbhd, nb.total_profit ≤ b.total_profit := by
  rcases (bestStep_fold_spec cur nbhd none).2.2 b hb with ⟨hmem, hmax, _⟩
  rcases hmem with ⟨hbm, hcb⟩ | heq
  · refine ⟨hbm, hcb, ?_⟩
    intro nb hnb
    by_cases hcnb : cur.total_profit < nb.total_profit
    · exact hmax nb hnb hcnb
    · exact (not_lt.mp hcnb).trans hcb.le
  · cases heq

/-! ## VND (`vnd.cpp`) -/

namespace VND

/-- `VND::generateAddDropNeighborhood`: ADD every addable non-selected item
(capacity and conflict checks), then DROP every selected item
(unconditional). -/
def generateAddDropNeighborhood (inst : DCKPInstance) (current_sol : Solution) :
    List Solution :=
  let adds := (List.range inst.n_items).filterMap (fun i =>
    if current_sol.hasItem i then none
    else if inst.capacity < current_sol.total_weight + inst.weight i then none
    else if (ascItems current_sol.selected_items).any
        (fun selected => inst.hasConflictN i selected) then none
    else
      some { (current_sol.addItem i (inst.profit i) (inst.weight i)) with
              is_feasible := true })
  let drops := (ascItems current_sol.selected_items).map (fun item =>
    { (current_sol.removeItem item (inst.profit item) (inst.weight item)) with
      is_feasible := true })
  adds ++ drops

/-- `VND::generateSwap11Neighborhood` is the verbatim duplicate of
`HillClimbing::generateSwapNeighborhood` in the source. -/
def generateSwap11Neighborhood (inst : DCKPInstance) (current_sol : Solution) :
    List Solution :=
  HillClimbing.generateSwapNeighborhood inst current_sol

/-- `VND::generateSwap21Neighborhood`: empty when fewer than two items are
selected; otherwise, for each selected pair `(item_out1, item_out2)`
(positions `i < j` in the ascending selected vector) and each non-selected
`item_in`, emit the 2-for-1 neighbour iff `item_in`'s profit strictly
exceeds the freed profit, the new weight fits, and `item_in` conflicts with
no remaining selected item. -/
def generateSwap21Neighborhood (inst : DCKPInstance) (current_sol : Solution) :
    List Solution :=
  let in_solution := ascItems current_sol.selected_items
  if in_solution.length < 2 then []
  else
    let out_solution :=
      (List.range inst.n_items).filter (fun i => !(current_sol.hasItem i))
    (upairs in_solution).flatMap (fun p =>
      let item_out1 := p.1
      let item_out2 := p.2
      let freed_weight := inst.weight item_out1 + inst.weight item_out2
      let freed_profit := inst.profit item_out1 + inst.profit item_out2
      out_solution.filterMap (fun item_in =>
        if inst.profit item_in ≤ freed_profit then none
        else if inst.capacity <
            current_sol.total_weight - freed_weight + inst.weight item_in then none
        else if (ascItems current_sol.selected_items).any
            (fun remaining => remaining ≠ item_out1 && remaining ≠ item_out2 &&
              inst.hasConflictN item_in remaining) then none
        else
          some
            { ((current_sol.removeItem item_out1 (inst.profit item_out1)
                  (inst.weight item_out1)).removeItem item_out2
                  (inst.profit item_out2) (inst.weight item_out2)).addItem item_in
                  (inst.profit item_in) (inst.weight item_in) with
              is_feasible := true }))

inductive NeighborhoodType
  | ADD_DROP
  | SWAP_1_1
  | SWAP_2_1
deriving DecidableEq

/-- `VND::exploreNeighborhood`: generate the requested neighbourhood and run
the same strictly-best-improvement selection as hill climbing (the source
repeats the selection loop verbatim). -/
def exploreNeighborhood (inst : DCKPInstance) (current_sol : Solution)
    (ty : NeighborhoodType) : Solution × Bool :=
  let neighborhood := match ty with
    | .ADD_DROP => generateAddDropNeighborhood inst current_sol
    | .SWAP_1_1 => generateSwap11Neighborhood inst current_sol
    | .SWAP_2_1 => generateSwap21Neighborhood inst current_sol
  match HillClimbing.findBestNeighbor current_sol neighborhood with
  | some best => (best, true)
  | none => (current_sol, false)

/-- `k = 1, 2, 3` maps to the three neighbourhoods in increasing order. -/
def typeOfK (k : ℕ) : NeighborhoodType :=
  if k = 1 then .ADD_DROP else if k = 2 then .SWAP_1_1 else .SWAP_2_1

/-- The schedule loop of `VND::solve` (`fuel` is the number of remaining
iterations up to `max_iterations`); also returns the `improvements`
counter. -/
def solveLoop (inst : DCKPInstance) : ℕ → ℕ → Solution → ℕ → Solution × ℕ
  | 0, _, current_sol, improvements => (current_sol, improvements)
  | fuel + 1, k, current_sol, improvements =>
    if 3 < k then (current_sol, improvements)
    else
      let explored := exploreNeighborhood inst current_sol (typeOfK k)
      if explored.2 then solveLoop inst fuel 1 explored.1 (improvements + 1)
      else solveLoop inst fuel (k + 1) current_sol improvements

/-- `VND::solve` (as in hill climbing, the `method_name` stamp is applied
to the result). -/
def solve (inst : DCKPInstance) (initial_solution : Solution)
    (max_iterations : ℕ) : Solution × ℕ :=
  let r := solveLoop inst max_iterations 1 initial_solution 0
  ({ r.1 with method_name := "VND" }, r.2)

end VND

/-! ## Concrete instances used by the witnesses -/

/-- Three items, capacity 10, one conflict pair (0, 1): the instance of the
spec's "conflict blocks greedy" scenario. -/
def instA : DCKPInstance :=
  { n_items := 3
    capacity := 10
    profits := [10, 9, 8]
    weights := [5, 5, 5]
    conflicts := [(0, 1)]
    conflict_graph := buildConflictGraph 3 [(0, 1)] }

/-- One item of weight 3 under capacity 10 and no conflicts. -/
def instB : DCKPInstance :=
  { n_items := 1
    capacity := 10
    profits := [1]
    weights := [3]
    conflicts := []
    conflict_graph := buildConflictGraph 1 [] }

/-- One zero-weight item of profit 5. -/
def instZW : DCKPInstance :=
  { n_items := 1
    capacity := 5
    profits := [5]
    weights := [0]
    conflicts := []
    conflict_graph := buildConflictGraph 1 [] }

/-- Two items of equal profit 5: a scoring tie for `MAX_PROFIT`. -/
def instTie : DCKPInstance :=
  { n_items := 2
    capacity := 10
    profits := [5, 5]
    weights := [1, 1]
    conflicts := []
    conflict_graph := buildConflictGraph 2 [] }

/-! ## Claim theorems -/

/-- Claim C9: on a solution that does not contain item `i`,
`addItem(i, p, w)` followed by `removeItem(i, p, w)` restores exactly the
prior state (all fields); `addItem` of a present item and `removeItem` of
an absent item each leave the solution unchanged. -/
theorem claim_C9 (s : Solution) (item : ℕ) (profit weight : ℤ) :
    (item ∉ s.selected_items →
      (s.addItem item profit weight).removeItem item profit weight = s) ∧
    (item ∈ s.selected_items → s.addItem item profit weight = s) ∧
    (item ∉ s.selected_items → s.removeItem item profit weight = s) := by
  refine ⟨?_, ?_, ?_⟩
  · intro h
    rw [Solution.addItem, if_neg h, Solution.removeItem]
    rw [if_pos (Finset.mem_insert_self item s.selected_items)]
    apply Solution.ext
    · exact Finset.erase_insert h
    · show s.total_profit + profit - profit = s.total_profit
      ring
    · show s.total_weight + weight - weight = s.total_weight
      ring
    · rfl
    · rfl
    · rfl
  · intro h
    rw [Solution.addItem, if_pos h]
  · intro h
    rw [Solution.removeItem, if_neg h]

theorem claim_C9_witness :
    (0 ∉ Solution.init.selected_items) ∧
    (Solution.init.addItem 0 5 3).removeItem 0 5 3 = Solution.init ∧
    Solution.init.removeItem 0 5 3 = Solution.init :=
  ⟨by decide, (claim_C9 Solution.init 0 5 3).1 (by decide),
    (claim_C9 Solution.init 0 5 3).2.2 (by decide)⟩

/-- Claim C10: `hasConflict(i, j)` returns `false` whenever `i` or `j` lies
outside `[0, n_items)` — the range guard fires before any adjacency list is
consulted, so conflict queries are total and an out-of-range index never
registers as conflicting with anything. -/
theorem claim_C10 (inst : DCKPInstance) (item1 item2 : ℤ)
    (h : item1 < 0 ∨ (inst.n_items : ℤ) ≤ item1 ∨
      item2 < 0 ∨ (inst.n_items : ℤ) ≤ item2) :
    inst.hasConflict item1 item2 = false := by
  unfold DCKPInstance.hasConflict
  rw [if_pos h]

theorem claim_C10_witness :
    ((-1 : ℤ) < 0 ∨ ((instA.n_items : ℤ) ≤ -1) ∨ (0 : ℤ) < 0 ∨
      (instA.n_items : ℤ) ≤ 0) ∧
    instA.hasConflict (-1) 0 = false ∧
    ((5 : ℤ) < 0 ∨ ((instA.n_items : ℤ) ≤ 5) ∨ (1 : ℤ) < 0 ∨
      (instA.n_items : ℤ) ≤ 1) ∧
    instA.hasConflict 5 1 = false :=
  ⟨Or.inl (by decide), claim_C10 instA (-1) 0 (Or.inl (by decide)),
    Or.inr (Or.inl (by decide)), claim_C10 instA 5 1 (Or.inr (Or.inl (by decide)))⟩

/-- Claim C6 counterexample: in `greedy.cpp` the zero-weight sentinel is
the constant `1e9`, not `1000 · profits[i]`: the zero-weight item 0 of
`instZW` has profit 5, so the claimed score would be 5000, but the code
scores it 10^9. -/
theorem claim_C6_counterexample :
    GreedyConstructive.calculateScore instZW 0 .MAX_PROFIT_WEIGHT = (10 ^ 9 : ℚ) ∧
    GreedyConstructive.calculateScore instZW 0 .MAX_PROFIT_WEIGHT ≠
      1000 * (instZW.profit 0 : ℚ) := by
  have h0 : instZW.weight 0 = 0 := by decide
  have h5 : instZW.profit 0 = 5 := by decide
  constructor
  · simp only [GreedyConstructive.calculateScore]
    rw [if_pos h0]
  · simp only [GreedyConstructive.calculateScore]
    rw [if_pos h0, h5]
    norm_num

/-- Claim C6 as amended: for every item `i` with `weights[i] = 0`, the
greedy `MAX_PROFIT_WEIGHT` score of `i` equals the constant sentinel
`1e9`, independent of `profits[i]`; all zero-weight items therefore share
the same score. -/
theorem claim_C6 (inst : DCKPInstance) (i : ℕ) (h : inst.weight i = 0) :
    GreedyConstructive.calculateScore inst i .MAX_PROFIT_WEIGHT = (10 ^ 9 : ℚ) := by
  simp only [GreedyConstructive.calculateScore]
  rw [if_pos h]

theorem claim_C6_witness :
    instZW.weight 0 = 0 ∧
    GreedyConstructive.calculateScore instZW 0 .MAX_PROFIT_WEIGHT = (10 ^ 9 : ℚ) :=
  ⟨by decide, claim_C6 instZW 0 (by decide)⟩

/-- A solution over `instB` whose cached `total_weight` (100) has drifted
from the true sum (3): item 0 weighs 3 under capacity 10. -/
def solDrift : Solution :=
  { selected_items := {0}
    total_profit := 1
    total_weight := 100
    is_feasible := true
    computation_time := 0
    method_name := "drift" }

/-- Claim C2 counterexample: on the drifted solution `solDrift`, `validate`
returns `false` although the recomputed `total_weight` (3) is within
capacity (10) and no selected pair conflicts — the capacity verdict was
taken against the stale cached weight 100, before the recomputation. -/
theorem claim_C2_counterexample :
    (Validator.validate instB solDrift).2 = false ∧
    (Validator.validate instB solDrift).1.total_weight = 3 ∧
    (Validator.validate instB solDrift).1.total_weight ≤ instB.capacity ∧
    (∀ i ∈ solDrift.selected_items, ∀ j ∈ solDrift.selected_items, i < j →
      instB.hasConflictN i j = false) := by
  refine ⟨by decide, by decide, by decide, by decide⟩

/-- Claim C2 as amended: `validate` recomputes `total_profit` and
`total_weight` from scratch over the in-range selected items and stores its
verdict in `is_feasible`, but the capacity half of the verdict compares the
CACHED pre-call `total_weight` with `capacity`: it returns true iff the
cached weight is within capacity and no unordered selected pair is in
conflict. -/
theorem claim_C2 (inst : DCKPInstance) (s : Solution) :
    ((Validator.validate inst s).2 = true ↔
      (s.total_weight ≤ inst.capacity ∧
        ∀ i ∈ s.selected_items, ∀ j ∈ s.selected_items, i < j →
          inst.hasConflictN i j = false)) ∧
    (Validator.validate inst s).1.is_feasible = (Validator.validate inst s).2 ∧
    (Validator.validate inst s).1.selected_items = s.selected_items ∧
    (Validator.validate inst s).1.total_profit
      = (s.selected_items.filter (· < inst.n_items)).sum inst.profit ∧
    (Validator.validate inst s).1.total_weight
      = (s.selected_items.filter (· < inst.n_items)).sum inst.weight := by
  refine ⟨validate_snd_true_iff inst s, ?_, ?_, ?_, ?_⟩
  · rw [validate_fst, validate_snd]
  · rw [validate_fst]
  · rw [validate_fst]
  · rw [validate_fst]

/-- What claim C3 asserts of `buildRCL` at `(inst, sol, alpha)`: the RCL is
non-empty and holds exactly the candidates (items passing the candidate
filter) whose score is at least `s_max − α·(s_max − s_min)`, where
`s_max`/`s_min` are the maximal and minimal candidate scores. -/
def rclSpec (inst : DCKPInstance) (sol : Solution) (alpha : ℚ) : Prop :=
  GRASPConstructive.buildRCL inst sol alpha ≠ [] ∧
  ∃ smax smin : ℚ,
    (∃ i, i < inst.n_items ∧ GRASPConstructive.candidateOk inst sol i = true ∧
      GRASPConstructive.calculateScore inst sol i = smax) ∧
    (∃ i, i < inst.n_items ∧ GRASPConstructive.candidateOk inst sol i = true ∧
      GRASPConstructive.calculateScore inst sol i = smin) ∧
    (∀ i, i < inst.n_items → GRASPConstructive.candidateOk inst sol i = true →
      GRASPConstructive.calculateScore inst sol i ≤ smax) ∧
    (∀ i, i < inst.n_items → GRASPConstructive.candidateOk inst sol i = true →
      smin ≤ GRASPConstructive.calculateScore inst sol i) ∧
    (∀ j, j ∈ GRASPConstructive.buildRCL inst sol alpha ↔
      j < inst.n_items ∧ GRASPConstructive.candidateOk inst sol j = true ∧
        smax - alpha * (smax - smin) ≤ GRASPConstructive.calculateScore inst sol j)

/-- Claim C3: for every partial solution and every `alpha ∈ [0, 1]`, if at
least one item passes the candidate filter (not selected, `checkCapacity`,
`checkConflicts`), then `buildRCL` returns a non-empty list consisting
exactly of the candidates whose score reaches the threshold
`s_max − α·(s_max − s_min)`. -/
theorem claim_C3 (inst : DCKPInstance) (sol : Solution) (alpha : ℚ)
    (h0 : 0 ≤ alpha) (h1 : alpha ≤ 1)
    (hex : ∃ i, i < inst.n_items ∧ GRASPConstructive.candidateOk inst sol i = true) :
    rclSpec inst sol alpha := by
  refine ⟨GRASPConstructive.buildRCL_ne_nil inst sol alpha h0 hex, ?_⟩
  obtain ⟨i0, hi0, hok0⟩ := hex
  have hne : GRASPConstructive.candidatesList inst sol ≠ [] := by
    intro h
    have hmem : (⟨i0, GRASPConstructive.calculateScore inst sol i0⟩ : GRASPConstructive.Candidate)
        ∈ GRASPConstructive.candidatesList inst sol :=
      (GRASPConstructive.mem_candidatesList inst sol _).mpr ⟨hi0, hok0, rfl⟩
    rw [h] at hmem
    cases hmem
  have hsne := GRASPConstructive.sortedCandidates_ne_nil hne
  have hhd := headD_mem _ hsne
    (⟨0, 0⟩ : GRASPConstructive.Candidate)
  have hlast := getLastD_mem _ hsne
    (⟨0, 0⟩ : GRASPConstructive.Candidate)
  rcases (GRASPConstructive.mem_candidatesList inst sol _).mp
    ((GRASPConstructive.mem_sortedCandidates inst sol _).mp hhd) with ⟨hid, hok, hsc⟩
  rcases (GRASPConstructive.mem_candidatesList inst sol _).mp
    ((GRASPConstructive.mem_sortedCandidates inst sol _).mp hlast) with ⟨lid, lok, lsc⟩
  refine ⟨((GRASPConstructive.sortedCandidates inst sol).headD ⟨0, 0⟩).score,
    ((GRASPConstructive.sortedCandidates inst sol).getLastD ⟨0, 0⟩).score,
    ⟨_, hid, hok, hsc.symm⟩, ⟨_, lid, lok, lsc.symm⟩, ?_, ?_, ?_⟩
  · intro i hir hiok
    exact GRASPConstructive.score_le_headD inst sol ⟨i, GRASPConstructive.calculateScore inst sol i⟩
      ((GRASPConstructive.mem_sortedCandidates inst sol _).mpr
        ((GRASPConstructive.mem_candidatesList inst sol _).mpr ⟨hir, hiok, rfl⟩))
  · intro i hir hiok
    exact GRASPConstructive.getLastD_le_score inst sol ⟨i, GRASPConstructive.calculateScore inst sol i⟩
      ((GRASPConstructive.mem_sortedCandidates inst sol _).mpr
        ((GRASPConstructive.mem_candidatesList inst sol _).mpr ⟨hir, hiok, rfl⟩))
  · intro j
    have hthdef : GRASPConstructive.rclThreshold inst sol alpha =
        ((GRASPConstructive.sortedCandidates inst sol).headD ⟨0, 0⟩).score -
          alpha * (((GRASPConstructive.sortedCandidates inst sol).headD ⟨0, 0⟩).score -
            ((GRASPConstructive.sortedCandidates inst sol).getLastD ⟨0, 0⟩).score) := rfl
    rw [← hthdef]
    exact GRASPConstructive.mem_buildRCL_iff inst sol alpha j

theorem claim_C3_witness :
    ((0 : ℚ) ≤ 1 / 2) ∧ ((1 / 2 : ℚ) ≤ 1) ∧
    (0 < instA.n_items ∧ GRASPConstructive.candidateOk instA Solution.init 0 = true) ∧
    rclSpec instA Solution.init (1 / 2) :=
  ⟨by norm_num, by norm_num, ⟨by decide, by decide⟩,
    claim_C3 instA Solution.init (1 / 2) (by norm_num) (by norm_num)
      ⟨0, by decide, by decide⟩⟩

/-- Claim C4: hill climbing's best-neighbour selection only ever returns a
swap neighbour whose `total_profit` strictly exceeds the current
solution's, and that neighbour has maximal profit over the whole
neighbourhood; started at a local optimum (no strictly improving swap
neighbour), `solve` performs zero moves and returns the input solution —
in particular the same selected set. -/
theorem claim_C4 :
    (∀ (cur : Solution) (nbhd : List Solution) (b : Solution),
      HillClimbing.findBestNeighbor cur nbhd = some b →
        b ∈ nbhd ∧ cur.total_profit < b.total_profit ∧
          ∀ nb ∈ nbhd, nb.total_profit ≤ b.total_profit) ∧
    (∀ (inst : DCKPInstance) (s0 : Solution) (max_iterations : ℕ),
      (∀ nb ∈ HillClimbing.generateSwapNeighborhood inst s0,
        ¬ s0.total_profit < nb.total_profit) →
      HillClimbing.solve inst s0 max_iterations =
        ({ s0 with method_name := "HillClimbing" }, 0)) := by
  constructor
  · exact findBestNeighbor_some_spec
  · intro inst s0 maxIt h
    have hloop : HillClimbing.solveLoop inst maxIt s0 0 = (s0, 0) := by
      cases maxIt with
      | zero => rfl
      | succ n =>
        unfold HillClimbing.solveLoop
        rw [(findBestNeighbor_none_iff s0 _).mpr h]
    unfold HillClimbing.solve
    rw [hloop]

/-- Items {0, 2} of `instA`: profit 18, weight 10 — a swap-neighbourhood
local optimum. -/
def solHC : Solution :=
  { selected_items := {0, 2}
    total_profit := 18
    total_weight := 10
    is_feasible := true
    computation_time := 0
    method_name := "start" }

theorem claim_C4_witness :
    (HillClimbing.findBestNeighbor Solution.init [solHC] = some solHC ∧
      solHC ∈ [solHC] ∧ Solution.init.total_profit < solHC.total_profit ∧
        ∀ nb ∈ [solHC], nb.total_profit ≤ solHC.total_profit) ∧
    ((∀ nb ∈ HillClimbing.generateSwapNeighborhood instA solHC,
        ¬ solHC.total_profit < nb.total_profit) ∧
      HillClimbing.solve instA solHC 5 =
        ({ solHC with method_name := "HillClimbing" }, 0)) :=
  ⟨⟨by decide, claim_C4.1 Solution.init [solHC] solHC (by decide)⟩,
   ⟨by decide, claim_C4.2 instA solHC 5 (by decide)⟩⟩

/-- The 2-for-1 move as the generator applies it: `removeItem` twice, then
`addItem`, then mark the neighbour feasible. -/
def swap21Apply (inst : DCKPInstance) (cur : Solution) (i1 i2 j : ℕ) : Solution :=
  { ((cur.removeItem i1 (inst.profit i1) (inst.weight i1)).removeItem i2
      (inst.profit i2) (inst.weight i2)).addItem j (inst.profit j)
      (inst.weight j) with
    is_feasible := true }

/-- Full characterisation of the Swap(2-1) generator (helper; claim C5
restates it). -/
theorem swap21_spec (inst : DCKPInstance) (cur : Solution) :
    (cur.selected_items.card < 2 → VND.generateSwap21Neighborhood inst cur = []) ∧
    (∀ nb, nb ∈ VND.generateSwap21Neighborhood inst cur ↔
      ∃ i1 i2 j, i1 ∈ cur.selected_items ∧ i2 ∈ cur.selected_items ∧ i1 < i2 ∧
        j < inst.n_items ∧ j ∉ cur.selected_items ∧
        inst.profit i1 + inst.profit i2 < inst.profit j ∧
        cur.total_weight - (inst.weight i1 + inst.weight i2) + inst.weight j ≤
          inst.capacity ∧
        (∀ r ∈ cur.selected_items, r ≠ i1 → r ≠ i2 →
          inst.hasConflictN j r = false) ∧
        nb = swap21Apply inst cur i1 i2 j) := by
  have hlen : (ascItems cur.selected_items).length = cur.selected_items.card :=
    length_ascItems _
  constructor
  · intro hcard
    unfold VND.generateSwap21Neighborhood
    rw [if_pos (by rw [hlen]; exact hcard)]
  · intro nb
    by_cases hcard : cur.selected_items.card < 2
    · rw [(by
        unfold VND.generateSwap21Neighborhood
        rw [if_pos (by rw [hlen]; exact hcard)] :
          VND.generateSwap21Neighborhood inst cur = [])]
      simp only [List.not_mem_nil, false_iff]
      rintro ⟨i1, i2, j, h1, h2, h12, -, -, -, -, -, -⟩
      have : 2 ≤ cur.selected_items.card := by
        have := Finset.one_lt_card.mpr ⟨i1, h1, i2, h2, Nat.ne_of_lt h12⟩
        omega
      omega
    · unfold VND.generateSwap21Neighborhood
      rw [if_neg (by rw [hlen]; exact hcard)]
      simp only [List.mem_flatMap, List.mem_filterMap, List.mem_filter,
        List.mem_range]
      constructor
      · rintro ⟨p, hp, j, ⟨⟨hjr, hjout⟩, hg⟩⟩
        rcases (mem_upairs_sorted (pairwise_lt_ascItems _) p.1 p.2).mp hp with
          ⟨hp1, hp2, hplt⟩
        rw [mem_ascItems] at hp1 hp2
        have hjsel : j ∉ cur.selected_items := by
          simpa [Solution.hasItem] using hjout
        by_cases c1 : inst.profit j ≤ inst.profit p.1 + inst.profit p.2
        · rw [if_pos c1] at hg
          cases hg
        rw [if_neg c1] at hg
        by_cases c2 : inst.capacity <
            cur.total_weight - (inst.weight p.1 + inst.weight p.2) + inst.weight j
        · rw [if_pos c2] at hg
          cases hg
        rw [if_neg c2] at hg
        by_cases c3 : (ascItems cur.selected_items).any
            (fun r => r ≠ p.1 && r ≠ p.2 && inst.hasConflictN j r)
        · rw [if_pos c3] at hg
          cases hg
        rw [if_neg c3] at hg
        refine ⟨p.1, p.2, j, hp1, hp2, hplt, hjr, hjsel, not_le.mp c1,
          not_lt.mp c2, ?_, (Option.some.inj hg).symm⟩
        intro r hr hr1 hr2
        have := (List.any_eq_true).not.mp c3
        push_neg at this
        have hrr := this r ((mem_ascItems _ r).mpr hr)
        simpa [hr1, hr2] using hrr
      · rintro ⟨i1, i2, j, h1, h2, h12, hjr, hjsel, hprof, hcap, hconf, rfl⟩
        refine ⟨(i1, i2), ?_, j, ⟨⟨hjr, ?_⟩, ?_⟩⟩
        · exact (mem_upairs_sorted (pairwise_lt_ascItems _) i1 i2).mpr
            ⟨(mem_ascItems _ i1).mpr h1, (mem_ascItems _ i2).mpr h2, h12⟩
        · simpa [Solution.hasItem] using hjsel
        · have hc3 : ¬ ((ascItems cur.selected_items).any
              (fun r => r ≠ i1 && r ≠ i2 && inst.hasConflictN j r) = true) := by
            intro hany
            rcases List.any_eq_true.mp hany with ⟨r, hr, hrb⟩
            rw [mem_ascItems] at hr
            simp only [Bool.and_eq_true, bne_iff_ne, decide_eq_true_eq] at hrb
            rcases hrb with ⟨⟨hr1, hr2⟩, hrc⟩
            rw [hconf r hr hr1 hr2] at hrc
            cases hrc
          dsimp only
          rw [if_neg (not_le.mpr hprof), if_neg (not_lt.mpr hcap), if_neg hc3]
          rfl

/-- Claim C5: the VND Swap(2-1) generator returns the empty neighbourhood
when fewer than 2 items are selected; otherwise it emits exactly the
neighbours obtained by removing an unordered selected pair `{i1, i2}` and
adding a non-selected `j` such that `profits[j] > profits[i1] + profits[i2]`,
the resulting weight is within capacity, and `j` conflicts with no item of
`selected` minus `{i1, i2}`. -/
theorem claim_C5 (inst : DCKPInstance) (cur : Solution) :
    (cur.selected_items.card < 2 → VND.generateSwap21Neighborhood inst cur = []) ∧
    (∀ nb, nb ∈ VND.generateSwap21Neighborhood inst cur ↔
      ∃ i1 i2 j, i1 ∈ cur.selected_items ∧ i2 ∈ cur.selected_items ∧ i1 < i2 ∧
        j < inst.n_items ∧ j ∉ cur.selected_items ∧
        inst.profit i1 + inst.profit i2 < inst.profit j ∧
        cur.total_weight - (inst.weight i1 + inst.weight i2) + inst.weight j ≤
          inst.capacity ∧
        (∀ r ∈ cur.selected_items, r ≠ i1 → r ≠ i2 →
          inst.hasConflictN j r = false) ∧
        nb = swap21Apply inst cur i1 i2 j) :=
  swap21_spec inst cur

theorem claim_C5_witness :
    solDrift.selected_items.card < 2 ∧
    VND.generateSwap21Neighborhood instB solDrift = [] :=
  ⟨by decide, (claim_C5 instB solDrift).1 (by decide)⟩

theorem score_of_mem_scoresList {inst : DCKPInstance} {strategy : GreedyStrategy}
    {a : GreedyConstructive.ItemScore}
    (ha : a ∈ GreedyConstructive.scoresList inst strategy) :
    a.score = GreedyConstructive.calculateScore inst a.item_id strategy := by
  unfold GreedyConstructive.scoresList at ha
  rcases List.mem_map.mp ha with ⟨i, hi, rfl⟩
  rfl

/-- Claim C7 counterexample: on `instTie` (profits `[5, 5]`) with
`MAX_PROFIT` scoring, `[1, 0]` is an admissible output of
`sortItemsByStrategy` — a projection of a permutation of the scored list
that is sorted for the score-only comparator — yet its two items have equal
scores and appear in descending index order, so the claimed ascending tie
order is not guaranteed. -/
theorem claim_C7_counterexample :
    GreedyConstructive.IsSortOutput instTie .MAX_PROFIT [1, 0] ∧
    ¬ ([1, 0].Pairwise (fun a b =>
        GreedyConstructive.calculateScore instTie a .MAX_PROFIT =
          GreedyConstructive.calculateScore instTie b .MAX_PROFIT → a < b)) := by
  constructor
  · refine ⟨[⟨1, 5⟩, ⟨0, 5⟩], ?_, ?_, rfl⟩
    · have : GreedyConstructive.scoresList instTie .MAX_PROFIT =
          [⟨0, 5⟩, ⟨1, 5⟩] := by decide
      rw [this]
      exact List.Perm.swap (⟨0, 5⟩ : GreedyConstructive.ItemScore) ⟨1, 5⟩ []
    · decide
  · intro h
    have h10 := (List.pairwise_cons.mp h).1 0 (List.mem_singleton_self 0)
    have : GreedyConstructive.calculateScore instTie 1 .MAX_PROFIT =
        GreedyConstructive.calculateScore instTie 0 .MAX_PROFIT := by decide
    exact absurd (h10 this) (by omega)

/-- Claim C7 as amended: every admissible output of `sortItemsByStrategy`
lists items in weakly descending score; the relative order of items with
equal score is left unspecified by the score-only comparator (`std::sort`
is not stable). -/
theorem claim_C7 (inst : DCKPInstance) (strategy : GreedyStrategy)
    (out : List ℕ) (h : GreedyConstructive.IsSortOutput inst strategy out) :
    out.Pairwise (fun a b =>
      GreedyConstructive.calculateScore inst b strategy ≤
        GreedyConstructive.calculateScore inst a strategy) := by
  obtain ⟨perm, hperm, hsorted, rfl⟩ := h
  rw [List.pairwise_map]
  refine hsorted.imp_of_mem ?_
  intro a b ha hb hab
  have hsa := score_of_mem_scoresList (hperm.subset ha)
  have hsb := score_of_mem_scoresList (hperm.subset hb)
  rw [← hsa, ← hsb]
  exact hab

theorem claim_C7_witness :
    GreedyConstructive.IsSortOutput instTie .MAX_PROFIT [1, 0] ∧
    [1, 0].Pairwise (fun a b =>
      GreedyConstructive.calculateScore instTie b .MAX_PROFIT ≤
        GreedyConstructive.calculateScore instTie a .MAX_PROFIT) := by
  have hout : GreedyConstructive.IsSortOutput instTie .MAX_PROFIT [1, 0] := by
    refine ⟨[⟨1, 5⟩, ⟨0, 5⟩], ?_, ?_, rfl⟩
    · have : GreedyConstructive.scoresList instTie .MAX_PROFIT =
          [⟨0, 5⟩, ⟨1, 5⟩] := by decide
      rw [this]
      exact List.Perm.swap (⟨0, 5⟩ : GreedyConstructive.ItemScore) ⟨1, 5⟩ []
    · decide
  exact ⟨hout, claim_C7 instTie .MAX_PROFIT [1, 0] hout⟩

/-! Lemmas about the conflict-graph build. -/

theorem getD_set_self : ∀ (g : List (List ℕ)) (u : ℕ) (x : List ℕ),
    u < g.length → (g.set u x).getD u [] = x
  | [], u, x, h => absurd h (by simp)
  | y :: g, 0, x, _ => rfl
  | y :: g, u + 1, x, h => getD_set_self g u x (by simpa using h)

theorem getD_set_ne : ∀ (g : List (List ℕ)) (u i : ℕ) (x : List ℕ),
    i ≠ u → (g.set u x).getD i [] = g.getD i []
  | [], u, i, x, _ => by simp
  | y :: g, 0, 0, x, h => absurd rfl h
  | y :: g, 0, i + 1, x, _ => rfl
  | y :: g, u + 1, 0, x, _ => rfl
  | y :: g, u + 1, i + 1, x, h => getD_set_ne g u i x (fun e => h (by omega))

theorem getD_pushAdj_self (g : List (List ℕ)) (u v : ℕ) (hu : u < g.length) :
    (pushAdj g u v).getD u [] = g.getD u [] ++ [v] :=
  getD_set_self g u _ hu

theorem getD_pushAdj_ne (g : List (List ℕ)) (u v i : ℕ) (hne : i ≠ u) :
    (pushAdj g u v).getD i [] = g.getD i [] :=
  getD_set_ne g u i _ hne

theorem length_pushAdj (g : List (List ℕ)) (u v : ℕ) :
    (pushAdj g u v).length = g.length := by
  simp [pushAdj]

theorem mem_pushAdj_iff (g : List (List ℕ)) (u v i x : ℕ) (hu : u < g.length) :
    x ∈ (pushAdj g u v).getD i [] ↔
      x ∈ g.getD i [] ∨ (i = u ∧ x = v) := by
  by_cases hiu : i = u
  · subst hiu
    rw [getD_pushAdj_self g i v hu]
    simp
  · rw [getD_pushAdj_ne g u v i hiu]
    simp [hiu]

theorem mem_foldPairs :
    ∀ (ps : List (ℕ × ℕ)) (g : List (List ℕ)),
      (∀ p ∈ ps, p.1 < g.length ∧ p.2 < g.length) → ∀ (i x : ℕ),
      (x ∈ (ps.foldl (fun g p => pushAdj (pushAdj g p.1 p.2) p.2 p.1) g).getD i [] ↔
        x ∈ g.getD i [] ∨ ∃ p ∈ ps, (p.1 = i ∧ p.2 = x) ∨ (p.1 = x ∧ p.2 = i))
  | [], g, _, i, x => by simp
  | q :: ps, g, hp, i, x => by
    rw [List.foldl_cons]
    have hq := hp q (List.mem_cons_self _ _)
    have hlen1 : (pushAdj g q.1 q.2).length = g.length := length_pushAdj _ _ _
    have hlen2 : (pushAdj (pushAdj g q.1 q.2) q.2 q.1).length = g.length := by
      rw [length_pushAdj, hlen1]
    have ih := mem_foldPairs ps (pushAdj (pushAdj g q.1 q.2) q.2 q.1)
      (fun p hps => by rw [hlen2]; exact hp p (List.mem_cons_of_mem _ hps)) i x
    rw [ih]
    have hstep : x ∈ (pushAdj (pushAdj g q.1 q.2) q.2 q.1).getD i [] ↔
        x ∈ g.getD i [] ∨ (q.1 = i ∧ q.2 = x) ∨ (q.1 = x ∧ q.2 = i) := by
      rw [mem_pushAdj_iff _ _ _ _ _ (by rw [hlen1]; exact hq.2),
        mem_pushAdj_iff _ _ _ _ _ hq.1]
      constructor
      · rintro ((h | ⟨rfl, rfl⟩) | ⟨rfl, rfl⟩)
        · exact Or.inl h
        · exact Or.inr (Or.inl ⟨rfl, rfl⟩)
        · exact Or.inr (Or.inr ⟨rfl, rfl⟩)
      · rintro (h | ⟨rfl, rfl⟩ | ⟨rfl, rfl⟩)
        · exact Or.inl (Or.inl h)
        · exact Or.inl (Or.inr ⟨rfl, rfl⟩)
        · exact Or.inr ⟨rfl, rfl⟩
    rw [hstep]
    simp only [List.mem_cons]
    constructor
    · rintro ((h | hq2) | ⟨p, hps, hpe⟩)
      · exact Or.inl h
      · exact Or.inr ⟨q, Or.inl rfl, by tauto⟩
      · exact Or.inr ⟨p, Or.inr hps, hpe⟩
    · rintro (h | ⟨p, hmem, hpe⟩)
      · exact Or.inl (Or.inl h)
      · rcases hmem with rfl | hps
        · exact Or.inl (Or.inr (by tauto))
        · exact Or.inr ⟨p, hps, hpe⟩

theorem length_foldPairs :
    ∀ (ps : List (ℕ × ℕ)) (g : List (List ℕ)),
      (ps.foldl (fun g p => pushAdj (pushAdj g p.1 p.2) p.2 p.1) g).length = g.length
  | [], g => rfl
  | q :: ps, g => by
    rw [List.foldl_cons, length_foldPairs ps, length_pushAdj, length_pushAdj]

theorem getD_map_nil (f : List ℕ → List ℕ) :
    ∀ (l : List (List ℕ)) (i : ℕ),
      (l.map f).getD i [] = if i < l.length then f (l.getD i []) else []
  | [], i => by simp
  | y :: l, 0 => by simp
  | y :: l, i + 1 => by
    simpa using getD_map_nil f l i

theorem mem_buildConflictGraph_iff (n : ℕ) (conflicts : List (ℕ × ℕ))
    (hin : ∀ p ∈ conflicts, p.1 < n ∧ p.2 < n) (i x : ℕ) :
    x ∈ (buildConflictGraph n conflicts).getD i [] ↔
      ∃ p ∈ conflicts, (p.1 = i ∧ p.2 = x) ∨ (p.1 = x ∧ p.2 = i) := by
  unfold buildConflictGraph
  have hlen : (conflicts.foldl (fun g p => pushAdj (pushAdj g p.1 p.2) p.2 p.1)
      (List.replicate n [])).length = n := by
    rw [length_foldPairs]
    exact List.length_replicate _ _
  rw [getD_map_nil]
  by_cases hi : i < (conflicts.foldl (fun g p => pushAdj (pushAdj g p.1 p.2) p.2 p.1)
      (List.replicate n [])).length
  · rw [if_pos hi, mem_dedupAdj, mem_sortBy]
    rw [mem_foldPairs conflicts (List.replicate n [])
      (fun p hp => by
        rw [List.length_replicate]
        exact hin p hp) i x]
    have hrep : (List.replicate n ([] : List ℕ)).getD i [] = [] := by
      by_cases hin2 : i < n
      · rw [List.getD_eq_getElem _ _ (by simpa using hin2)]
        simp
      · rw [List.getD_eq_default _ _ (by simpa using hin2)]
    rw [hrep]
    simp
  · rw [if_neg hi]
    rw [hlen] at hi
    simp only [List.not_mem_nil, false_iff]
    rintro ⟨p, hps, (⟨rfl, rfl⟩ | ⟨rfl, rfl⟩)⟩
    · exact hi (hin p hps).1
    · exact hi (hin p hps).2

theorem pairwise_buildConflictGraph (n : ℕ) (conflicts : List (ℕ × ℕ)) (i : ℕ) :
    ((buildConflictGraph n conflicts).getD i []).Pairwise (· < ·) := by
  unfold buildConflictGraph
  rw [getD_map_nil]
  split
  · apply pairwise_lt_dedupAdj
    refine (pairwise_sortBy (fun a b : ℕ => decide (a ≤ b)) ?_ ?_ _).imp
      (fun hab => of_decide_eq_true hab)
    · intro a b hf
      simp only [decide_eq_false_iff_not, not_le] at hf
      exact decide_eq_true hf.le
    · intro a b c h1 h2
      simp only [decide_eq_true_eq] at h1 h2 ⊢
      omega
  · exact List.Pairwise.nil

/-- Claim C8 counterexample: the stored raw pairs are filtered only for
range, not `u ≠ v`, and `buildConflictGraph` inserts every stored pair in
both directions — so the self-pair `(0, 0)` puts the entry 0 into
`adj[0]`, where the claim says it adds nothing to any list. -/
theorem claim_C8_counterexample :
    (0 ∈ (buildConflictGraph 1 [(0, 0)]).getD 0 []) ∧
    (buildConflictGraph 1 [(0, 0)]).getD 0 [] = [0] := by
  refine ⟨by decide, by decide⟩

/-- Claim C8 as amended: after the build, every stored raw pair `(u, v)` —
including self-pairs — contributes the entry `v` to `adj[u]` and `u` to
`adj[v]`; every adjacency list is sorted strictly ascending (hence
duplicate-free); and nothing else appears: `x ∈ adj[i]` only if `(i, x)`
or `(x, i)` is a stored raw pair. -/
theorem claim_C8 (n : ℕ) (conflicts : List (ℕ × ℕ))
    (hin : ∀ p ∈ conflicts, p.1 < n ∧ p.2 < n) :
    (∀ p ∈ conflicts, p.2 ∈ (buildConflictGraph n conflicts).getD p.1 [] ∧
      p.1 ∈ (buildConflictGraph n conflicts).getD p.2 []) ∧
    (∀ i, ((buildConflictGraph n conflicts).getD i []).Pairwise (· < ·)) ∧
    (∀ i x, x ∈ (buildConflictGraph n conflicts).getD i [] →
      (i, x) ∈ conflicts ∨ (x, i) ∈ conflicts) := by
  refine ⟨?_, pairwise_buildConflictGraph n conflicts, ?_⟩
  · intro p hp
    constructor
    · exact (mem_buildConflictGraph_iff n conflicts hin p.1 p.2).mpr
        ⟨p, hp, Or.inl ⟨rfl, rfl⟩⟩
    · exact (mem_buildConflictGraph_iff n conflicts hin p.2 p.1).mpr
        ⟨p, hp, Or.inr ⟨rfl, rfl⟩⟩
  · intro i x hx
    rcases (mem_buildConflictGraph_iff n conflicts hin i x).mp hx with
      ⟨p, hps, (⟨h1, h2⟩ | ⟨h1, h2⟩)⟩
    · left
      rw [← h1, ← h2]
      exact hps
    · right
      rw [← h1, ← h2]
      exact hps

theorem claim_C8_witness :
    (∀ p ∈ [((0 : ℕ), (1 : ℕ))], p.1 < 3 ∧ p.2 < 3) ∧
    (∀ p ∈ [((0 : ℕ), (1 : ℕ))], p.2 ∈ (buildConflictGraph 3 [(0, 1)]).getD p.1 [] ∧
      p.1 ∈ (buildConflictGraph 3 [(0, 1)]).getD p.2 []) ∧
    (∀ i, ((buildConflictGraph 3 [(0, 1)]).getD i []).Pairwise (· < ·)) ∧
    (∀ i x, x ∈ (buildConflictGraph 3 [(0, 1)]).getD i [] →
      (i, x) ∈ [((0 : ℕ), (1 : ℕ))] ∨ (x, i) ∈ [((0 : ℕ), (1 : ℕ))]) :=
  ⟨by decide, (claim_C8 3 [(0, 1)] (by decide)).1,
    (claim_C8 3 [(0, 1)] (by decide)).2.1,
    (claim_C8 3 [(0, 1)] (by decide)).2.2⟩

/-! ## Invariant preservation through the local-search moves -/

theorem inv_feasibleFlag {inst : DCKPInstance} {s : Solution}
    (h : SolutionInv inst s) :
    SolutionInv inst { s with is_feasible := true } :=
  h

theorem inv_swap11Apply (inst : DCKPInstance) (hsymm : ConflictSymm inst)
    {cur : Solution} (hinv : SolutionInv inst cur) {o i : ℕ}
    (ho : o ∈ cur.selected_items) (hir : i < inst.n_items)
    (hi : i ∉ cur.selected_items)
    (hwle : cur.total_weight - inst.weight o + inst.weight i ≤ inst.capacity)
    (hcf : ∀ r ∈ cur.selected_items, r ≠ o → inst.hasConflictN i r = false) :
    SolutionInv inst
      { (cur.removeItem o (inst.profit o) (inst.weight o)).addItem i
          (inst.profit i) (inst.weight i) with is_feasible := true } := by
  obtain ⟨hrange, hwsum, hwcap, hpair⟩ := hinv
  have hia : i ∉ cur.selected_items.erase o := fun h => hi (Finset.mem_of_mem_erase h)
  rw [Solution.removeItem, if_pos ho, Solution.addItem, if_neg hia]
  refine ⟨?_, ?_, hwle, ?_⟩
  · intro r hr
    rcases Finset.mem_insert.mp hr with rfl | hr
    · exact hir
    · exact hrange r (Finset.mem_of_mem_erase hr)
  · show cur.total_weight - inst.weight o + inst.weight i =
      (insert i (cur.selected_items.erase o)).sum inst.weight
    rw [Finset.sum_insert hia]
    have hes := Finset.sum_erase_add cur.selected_items inst.weight ho
    linarith
  · intro r hr s hs hrs
    rcases Finset.mem_insert.mp hr with hr2 | hr2 <;>
      rcases Finset.mem_insert.mp hs with hs2 | hs2
    · exact absurd (hr2.trans hs2.symm) hrs
    · rw [hr2]
      exact hcf s (Finset.mem_of_mem_erase hs2) (Finset.ne_of_mem_erase hs2)
    · rw [hs2, hsymm r i (hrange r (Finset.mem_of_mem_erase hr2)) hir]
      exact hcf r (Finset.mem_of_mem_erase hr2) (Finset.ne_of_mem_erase hr2)
    · exact hpair r (Finset.mem_of_mem_erase hr2) s (Finset.mem_of_mem_erase hs2) hrs

theorem inv_dropApply (inst : DCKPInstance) {cur : Solution}
    (hinv : SolutionInv inst cur)
    (hwpos : ∀ k, k < inst.n_items → 0 ≤ inst.weight k) {o : ℕ}
    (ho : o ∈ cur.selected_items) :
    SolutionInv inst
      { cur.removeItem o (inst.profit o) (inst.weight o) with
        is_feasible := true } := by
  obtain ⟨hrange, hwsum, hwcap, hpair⟩ := hinv
  rw [Solution.removeItem, if_pos ho]
  refine ⟨?_, ?_, ?_, ?_⟩
  · intro r hr
    exact hrange r (Finset.mem_of_mem_erase hr)
  · show cur.total_weight - inst.weight o =
      (cur.selected_items.erase o).sum inst.weight
    have hes := Finset.sum_erase_add cur.selected_items inst.weight ho
    linarith
  · show cur.total_weight - inst.weight o ≤ inst.capacity
    have := hwpos o (hrange o ho)
    linarith
  · intro r hr s hs hrs
    exact hpair r (Finset.mem_of_mem_erase hr) s (Finset.mem_of_mem_erase hs) hrs

theorem inv_addApply (inst : DCKPInstance) (hsymm : ConflictSymm inst)
    {cur : Solution} (hinv : SolutionInv inst cur) {i : ℕ}
    (hir : i < inst.n_items) (hi : i ∉ cur.selected_items)
    (hwle : cur.total_weight + inst.weight i ≤ inst.capacity)
    (hcf : ∀ r ∈ cur.selected_items, inst.hasConflictN i r = false) :
    SolutionInv inst
      { cur.addItem i (inst.profit i) (inst.weight i) with
        is_feasible := true } := by
  refine inv_feasibleFlag (inv_addItem_of_checks hsymm hinv hir ?_ ?_)
  · exact decide_eq_true hwle
  · exact (checkConflicts_iff inst i cur.selected_items).mpr hcf

theorem inv_swap21Apply (inst : DCKPInstance) (hsymm : ConflictSymm inst)
    {cur : Solution} (hinv : SolutionInv inst cur) {o1 o2 j : ℕ}
    (ho1 : o1 ∈ cur.selected_items) (ho2 : o2 ∈ cur.selected_items)
    (hne : o2 ≠ o1) (hjr : j < inst.n_items) (hj : j ∉ cur.selected_items)
    (hwle : cur.total_weight - (inst.weight o1 + inst.weight o2) + inst.weight j ≤
      inst.capacity)
    (hcf : ∀ r ∈ cur.selected_items, r ≠ o1 → r ≠ o2 →
      inst.hasConflictN j r = false) :
    SolutionInv inst (swap21Apply inst cur o1 o2 j) := by
  obtain ⟨hrange, hwsum, hwcap, hpair⟩ := hinv
  have ho2e : o2 ∈ cur.selected_items.erase o1 := Finset.mem_erase.mpr ⟨hne, ho2⟩
  have hje : j ∉ (cur.selected_items.erase o1).erase o2 := fun h =>
    hj (Finset.mem_of_mem_erase (Finset.mem_of_mem_erase h))
  unfold swap21Apply
  have h1 : cur.removeItem o1 (inst.profit o1) (inst.weight o1) =
      { cur with
        selected_items := cur.selected_items.erase o1
        total_profit := cur.total_profit - inst.profit o1
        total_weight := cur.total_weight - inst.weight o1 } := by
    rw [Solution.removeItem, if_pos ho1]
  rw [h1, Solution.removeItem,
    if_pos (show o2 ∈ ({ cur with
      selected_items := cur.selected_items.erase o1
      total_profit := cur.total_profit - inst.profit o1
      total_weight := cur.total_weight - inst.weight o1 } : Solution).selected_items
      from ho2e),
    Solution.addItem,
    if_neg (show ¬ j ∈ ({ cur with
      selected_items := (cur.selected_items.erase o1).erase o2
      total_profit := cur.total_profit - inst.profit o1 - inst.profit o2
      total_weight := cur.total_weight - inst.weight o1 - inst.weight o2 } :
        Solution).selected_items from hje)]
  refine ⟨?_, ?_, ?_, ?_⟩
  · intro r hr
    rcases Finset.mem_insert.mp hr with rfl | hr
    · exact hjr
    · exact hrange r (Finset.mem_of_mem_erase (Finset.mem_of_mem_erase hr))
  · show cur.total_weight - inst.weight o1 - inst.weight o2 + inst.weight j =
      (insert j ((cur.selected_items.erase o1).erase o2)).sum inst.weight
    rw [Finset.sum_insert hje]
    have h1 := Finset.sum_erase_add cur.selected_items inst.weight ho1
    have h2 := Finset.sum_erase_add (cur.selected_items.erase o1) inst.weight ho2e
    linarith
  · show cur.total_weight - inst.weight o1 - inst.weight o2 + inst.weight j ≤
      inst.capacity
    linarith
  · intro r hr s hs hrs
    have hmem2 : ∀ t, t ∈ (cur.selected_items.erase o1).erase o2 →
        t ∈ cur.selected_items ∧ t ≠ o1 ∧ t ≠ o2 := by
      intro t ht
      rcases Finset.mem_erase.mp ht with ⟨ht2, ht1⟩
      rcases Finset.mem_erase.mp ht1 with ⟨ht1a, ht1b⟩
      exact ⟨ht1b, ht1a, ht2⟩
    rcases Finset.mem_insert.mp hr with hr2 | hr2 <;>
      rcases Finset.mem_insert.mp hs with hs2 | hs2
    · exact absurd (hr2.trans hs2.symm) hrs
    · rcases hmem2 s hs2 with ⟨hsa, hsb, hsc⟩
      rw [hr2]
      exact hcf s hsa hsb hsc
    · rcases hmem2 r hr2 with ⟨hra, hrb, hrc⟩
      rw [hs2, hsymm r j (hrange r hra) hjr]
      exact hcf r hra hrb hrc
    · exact hpair r (hmem2 r hr2).1 s (hmem2 s hs2).1 hrs

theorem inv_swapNeighborhood (inst : DCKPInstance) (hsymm : ConflictSymm inst)
    {cur : Solution} (hinv : SolutionInv inst cur) :
    ∀ nb ∈ HillClimbing.generateSwapNeighborhood inst cur, SolutionInv inst nb := by
  intro nb hnb
  unfold HillClimbing.generateSwapNeighborhood at hnb
  simp only [List.mem_flatMap, List.mem_filterMap, List.mem_filter,
    List.mem_range] at hnb
  obtain ⟨o, ho, i, ⟨⟨hir, hiout⟩, hg⟩⟩ := hnb
  rw [mem_ascItems] at ho
  have hisel : i ∉ cur.selected_items := by
    simpa [Solution.hasItem] using hiout
  by_cases c1 : inst.capacity < cur.total_weight - inst.weight o + inst.weight i
  · rw [if_pos c1] at hg
    cases hg
  rw [if_neg c1] at hg
  by_cases c2 : (ascItems cur.selected_items).any
      (fun r => r ≠ o && inst.hasConflictN i r)
  · rw [if_pos c2] at hg
    cases hg
  rw [if_neg c2] at hg
  have hcf : ∀ r ∈ cur.selected_items, r ≠ o → inst.hasConflictN i r = false := by
    intro r hr hro
    have hall := (List.any_eq_true).not.mp c2
    push_neg at hall
    have := hall r ((mem_ascItems _ r).mpr hr)
    simpa [hro] using this
  exact (Option.some.inj hg) ▸
    inv_swap11Apply inst hsymm hinv ho hir hisel (not_lt.mp c1) hcf

theorem inv_addDropNeighborhood (inst : DCKPInstance) (hsymm : ConflictSymm inst)
    (hwpos : ∀ k, k < inst.n_items → 0 ≤ inst.weight k)
    {cur : Solution} (hinv : SolutionInv inst cur) :
    ∀ nb ∈ VND.generateAddDropNeighborhood inst cur, SolutionInv inst nb := by
  intro nb hnb
  unfold VND.generateAddDropNeighborhood at hnb
  rw [List.mem_append] at hnb
  rcases hnb with hadd | hdrop
  · simp only [List.mem_filterMap, List.mem_range] at hadd
    obtain ⟨i, hir, hg⟩ := hadd
    by_cases c0 : cur.hasItem i
    · rw [if_pos c0] at hg
      cases hg
    rw [if_neg c0] at hg
    by_cases c1 : inst.capacity < cur.total_weight + inst.weight i
    · rw [if_pos c1] at hg
      cases hg
    rw [if_neg c1] at hg
    by_cases c2 : (ascItems cur.selected_items).any (fun s => inst.hasConflictN i s)
    · rw [if_pos c2] at hg
      cases hg
    rw [if_neg c2] at hg
    have hisel : i ∉ cur.selected_items := by
      simpa [Solution.hasItem] using c0
    have hcf : ∀ r ∈ cur.selected_items, inst.hasConflictN i r = false := by
      intro r hr
      have hall := (List.any_eq_true).not.mp c2
      push_neg at hall
      simpa using hall r ((mem_ascItems _ r).mpr hr)
    exact (Option.some.inj hg) ▸
      inv_addApply inst hsymm hinv hir hisel (not_lt.mp c1) hcf
  · simp only [List.mem_map] at hdrop
    obtain ⟨o, ho, hg⟩ := hdrop
    rw [mem_ascItems] at ho
    exact hg ▸ inv_dropApply inst hinv hwpos ho

theorem inv_swap21Neighborhood (inst : DCKPInstance) (hsymm : ConflictSymm inst)
    {cur : Solution} (hinv : SolutionInv inst cur) :
    ∀ nb ∈ VND.generateSwap21Neighborhood inst cur, SolutionInv inst nb := by
  intro nb hnb
  rcases ((swap21_spec inst cur).2 nb).mp hnb with
    ⟨i1, i2, j, h1, h2, h12, hjr, hj, hprof, hcap, hcf, rfl⟩
  exact inv_swap21Apply inst hsymm hinv h1 h2 (Nat.ne_of_lt h12).symm hjr hj hcap hcf

theorem inv_hcLoop (inst : DCKPInstance) (hsymm : ConflictSymm inst) :
    ∀ (fuel : ℕ) (s : Solution) (imp : ℕ), SolutionInv inst s →
      SolutionInv inst (HillClimbing.solveLoop inst fuel s imp).1
  | 0, s, imp, hs => hs
  | fuel + 1, s, imp, hs => by
    unfold HillClimbing.solveLoop
    cases hfb : HillClimbing.findBestNeighbor s
        (HillClimbing.generateSwapNeighborhood inst s) with
    | none => exact hs
    | some b =>
      exact inv_hcLoop inst hsymm fuel b (imp + 1)
        (inv_swapNeighborhood inst hsymm hs b (findBestNeighbor_some_spec _ _ _ hfb).1)

theorem inv_explore (inst : DCKPInstance) (hsymm : ConflictSymm inst)
    (hwpos : ∀ k, k < inst.n_items → 0 ≤ inst.weight k)
    {cur : Solution} (hinv : SolutionInv inst cur) (ty : VND.NeighborhoodType) :
    SolutionInv inst (VND.exploreNeighborhood inst cur ty).1 := by
  have main : ∀ (nbhd : List Solution), (∀ nb ∈ nbhd, SolutionInv inst nb) →
      SolutionInv inst (match HillClimbing.findBestNeighbor cur nbhd with
        | some best => (best, true)
        | none => (cur, false)).1 := by
    intro nbhd hN
    cases hfb : HillClimbing.findBestNeighbor cur nbhd with
    | none => exact hinv
    | some b => exact hN b (findBestNeighbor_some_spec _ _ _ hfb).1
  cases ty
  · exact main _ (inv_addDropNeighborhood inst hsymm hwpos hinv)
  · exact main _ (inv_swapNeighborhood inst hsymm hinv)
  · exact main _ (inv_swap21Neighborhood inst hsymm hinv)

theorem inv_vndLoop (inst : DCKPInstance) (hsymm : ConflictSymm inst)
    (hwpos : ∀ k, k < inst.n_items → 0 ≤ inst.weight k) :
    ∀ (fuel k : ℕ) (s : Solution) (imp : ℕ), SolutionInv inst s →
      SolutionInv inst (VND.solveLoop inst fuel k s imp).1
  | 0, k, s, imp, hs => hs
  | fuel + 1, k, s, imp, hs => by
    unfold VND.solveLoop
    by_cases hk : 3 < k
    · rw [if_pos hk]
      exact hs
    · rw [if_neg hk]
      by_cases hf : (VND.exploreNeighborhood inst s (VND.typeOfK k)).2
      · rw [if_pos hf]
        exact inv_vndLoop inst hsymm hwpos fuel 1 _ (imp + 1)
          (inv_explore inst hsymm hwpos hs (VND.typeOfK k))
      · rw [if_neg hf]
        exact inv_vndLoop inst hsymm hwpos fuel (k + 1) s imp hs

theorem inv_greedyFold (inst : DCKPInstance) (hsymm : ConflictSymm inst) :
    ∀ (order : List ℕ) (s : Solution), (∀ i ∈ order, i < inst.n_items) →
      SolutionInv inst s →
      SolutionInv inst (order.foldl
        (fun sol item =>
          if !(Validator.checkCapacity inst sol.total_weight (inst.weight item)) then sol
          else if !(Validator.checkConflicts inst item sol.selected_items) then sol
          else sol.addItem item (inst.profit item) (inst.weight item)) s)
  | [], s, _, hs => hs
  | x :: xs, s, horder, hs => by
    rw [List.foldl_cons]
    refine inv_greedyFold inst hsymm xs _
      (fun i hi => horder i (List.mem_cons_of_mem _ hi)) ?_
    by_cases hc1 : Validator.checkCapacity inst s.total_weight (inst.weight x)
    · rw [if_neg (by simp [hc1])]
      by_cases hc2 : Validator.checkConflicts inst x s.selected_items
      · rw [if_neg (by simp [hc2])]
        exact inv_addItem_of_checks hsymm hs (horder x (List.mem_cons_self _ _)) hc1 hc2
      · rw [if_pos (by simp [Bool.eq_false_iff.mpr hc2])]
        exact hs
    · rw [if_pos (by simp [Bool.eq_false_iff.mpr hc1])]
      exact hs

theorem inv_constructLoop (inst : DCKPInstance) (hsymm : ConflictSymm inst)
    (alpha : ℚ) (rand : ℕ → ℕ) :
    ∀ (fuel step : ℕ) (s : Solution), SolutionInv inst s →
      SolutionInv inst (GRASPConstructive.constructLoop inst alpha rand fuel step s)
  | 0, _, s, hs => hs
  | fuel + 1, step, s, hs => by
    unfold GRASPConstructive.constructLoop
    by_cases hemp : (GRASPConstructive.buildRCL inst s alpha).isEmpty
    · rw [if_pos hemp]
      exact hs
    · rw [if_neg hemp]
      have hlen : 0 < (GRASPConstructive.buildRCL inst s alpha).length :=
        List.length_pos.mpr (fun h => hemp (by rw [h]; rfl))
      have hmem : (GRASPConstructive.buildRCL inst s alpha).getD
          (rand step % (GRASPConstructive.buildRCL inst s alpha).length) 0 ∈
          GRASPConstructive.buildRCL inst s alpha := by
        rw [List.getD_eq_getElem _ _ (Nat.mod_lt _ hlen)]
        exact List.getElem_mem _
      rcases (GRASPConstructive.mem_buildRCL_iff inst s alpha _).mp hmem with
        ⟨hir, hok, _⟩
      have hok2 := hok
      unfold GRASPConstructive.candidateOk at hok2
      simp only [Bool.and_eq_true] at hok2
      rcases hok2 with ⟨⟨hnotin, hcap⟩, hconf⟩
      exact inv_constructLoop inst hsymm alpha rand fuel (step + 1) _
        (inv_addItem_of_checks hsymm hs hir hcap hconf)

theorem inv_constructSolution (inst : DCKPInstance) (hsymm : ConflictSymm inst)
    (hcap : 0 ≤ inst.capacity) (alpha : ℚ) (rand : ℕ → ℕ) :
    SolutionInv inst (GRASPConstructive.constructSolution inst alpha rand) :=
  inv_validate (inv_constructLoop inst hsymm alpha rand _ 0 Solution.init
    (solutionInv_init inst hcap))

theorem inv_graspFold (inst : DCKPInstance) (alpha : ℚ) (rand : ℕ → ℕ → ℕ)
    (hinvC : ∀ i, SolutionInv inst (GRASPConstructive.constructSolution inst alpha (rand i))) :
    ∀ (l : List ℕ) (best : Solution), SolutionInv inst best →
      SolutionInv inst (l.foldl
        (fun best i =>
          let current := GRASPConstructive.constructSolution inst alpha (rand i)
          if current.is_feasible && best.total_profit < current.total_profit then current
          else best) best)
  | [], best, hb => hb
  | x :: xs, best, hb => by
    rw [List.foldl_cons]
    refine inv_graspFold inst alpha rand hinvC xs _ ?_
    dsimp only
    split
    · exact hinvC x
    · exact hb

instance (inst : DCKPInstance) (s : Solution) : Decidable (SolutionInv inst s) := by
  unfold SolutionInv PairFree
  infer_instance

/-- Claim C1: every solution returned by a greedy construction (any
admissible item order), by GRASP (any draw stream, any alpha, any
iteration count), by hill climbing, or by VND — the two local searches
started from a feasible initial solution — passes `validate`, and after
the call `total_profit` and `total_weight` equal the sums of profits and
weights over the selected set.  The instance-level hypotheses are the
loader's invariants: a symmetric conflict query, a non-negative capacity
and non-negative weights. -/
theorem claim_C1 (inst : DCKPInstance) (hsymm : ConflictSymm inst)
    (hcap : 0 ≤ inst.capacity)
    (hwpos : ∀ k, k < inst.n_items → 0 ≤ inst.weight k) :
    (∀ order : List ℕ, (∀ i ∈ order, i < inst.n_items) →
      ValidatesOk inst (GreedyConstructive.construct inst order)) ∧
    (∀ (alpha : ℚ) (rand : ℕ → ℕ → ℕ) (iterations : ℕ),
      ValidatesOk inst (GRASPConstructive.solve inst alpha rand iterations)) ∧
    (∀ (s0 : Solution) (max_iterations : ℕ), SolutionInv inst s0 →
      ValidatesOk inst (HillClimbing.solve inst s0 max_iterations).1) ∧
    (∀ (s0 : Solution) (max_iterations : ℕ), SolutionInv inst s0 →
      ValidatesOk inst (VND.solve inst s0 max_iterations).1) := by
  refine ⟨?_, ?_, ?_, ?_⟩
  · intro order horder
    exact validatesOk_of_inv (inv_validate
      (inv_greedyFold inst hsymm order Solution.init horder (solutionInv_init inst hcap)))
  · intro alpha rand iterations
    apply validatesOk_of_inv
    have hbest0 : SolutionInv inst { Solution.init with total_profit := -1 } :=
      solutionInv_init inst hcap
    exact inv_graspFold inst alpha rand
      (fun i => inv_constructSolution inst hsymm hcap alpha (rand i))
      (List.range iterations) _ hbest0
  · intro s0 maxIt h0
    exact validatesOk_of_inv (inv_hcLoop inst hsymm maxIt s0 0 h0)
  · intro s0 maxIt h0
    exact validatesOk_of_inv (inv_vndLoop inst hsymm hwpos maxIt 1 s0 0 h0)

theorem claim_C1_witness :
    ConflictSymm instA ∧ (0 : ℤ) ≤ instA.capacity ∧
    (∀ k, k < instA.n_items → 0 ≤ instA.weight k) ∧
    SolutionInv instA solHC ∧
    ValidatesOk instA (GreedyConstructive.construct instA [0, 1, 2]) ∧
    ValidatesOk instA (GRASPConstructive.solve instA 0 (fun _ _ => 0) 2) ∧
    ValidatesOk instA (HillClimbing.solve instA solHC 3).1 ∧
    ValidatesOk instA (VND.solve instA solHC 3).1 :=
  ⟨by decide, by decide, by decide, by decide,
    (claim_C1 instA (by decide) (by decide) (by decide)).1 [0, 1, 2] (by decide),
    (claim_C1 instA (by decide) (by decide) (by decide)).2.1 0 (fun _ _ => 0) 2,
    (claim_C1 instA (by decide) (by decide) (by decide)).2.2.1 solHC 3 (by decide),
    (claim_C1 instA (by decide) (by decide) (by decide)).2.2.2 solHC 3 (by decide)⟩

/-! ## Concrete evaluations cross-checking the embedding

The spec's "conflict blocks greedy" scenario on `instA`: the conflict graph
of the single raw pair `(0, 1)`, the conflict queries, and the
`MAX_PROFIT`-ordered greedy pass picking items 0 and 2 for profit 18. -/

theorem instA_graph_eval : buildConflictGraph 3 [(0, 1)] = [[1], [0], []] := by
  decide

theorem instA_conflict_eval :
    instA.hasConflictN 0 1 = true ∧ instA.hasConflictN 1 2 = false ∧
    ConflictSymm instA := by
  refine ⟨by decide, by decide, by decide⟩

theorem instA_greedy_eval :
    (GreedyConstructive.greedyPass instA [0, 1, 2]).selected_items = {0, 2} ∧
    (GreedyConstructive.greedyPass instA [0, 1, 2]).total_profit = 18 := by
  refine ⟨by decide, by decide⟩

end DCKP
